import Mathlib

/-!
Verification development for the WebKit `FrameManager` of the playwright
excerpt (src/unnamed/part_000).  The mutable state of the `FrameManager`
class is embedded as a Lean structure; each protocol handler becomes a
state-transforming function.  JavaScript heap objects of class
`frames.Frame` (module `../frames`, not part of the excerpt) are kept in a
heap map indexed by a logical identity (`Nat`); the parts of `Frame` that
the handlers call are modelled from the spec where noted.  A handler that
would throw a `TypeError` (dereferencing `undefined`) is modelled as
returning `none`; `assert` failures are modelled as `Except.error`.
-/

set_option maxHeartbeats 1000000

/-- Lifecycle event names used by the session listeners (`load`,
`domcontentloaded`). -/
inductive LifecycleEvent where
  | load
  | domcontentloaded
deriving DecidableEq

/-- Reserved isolated world name, line 40 of the source. -/
def UTILITY_WORLD_NAME : String := "__playwright_utility_world__"

/-- Reserved console sentinel for binding calls, line 41 of the source. -/
def BINDING_CALL_MESSAGE : String := "__playwright_binding_call__"

/-- One console message parameter (`Protocol.Runtime.RemoteObject`).  The
`objectId` is a JSON string holding an `injectedScriptId`; the JSON codec is
external, so the field is modelled as the parsed `injectedScriptId`. -/
structure ConsoleParam where
  value : Option String
  objectId : Option Nat
deriving DecidableEq

/-- A handle produced by `context._createHandle(p)`: the context it was
created in together with the parameter. -/
structure Handle where
  ctx : Nat
  param : ConsoleParam
deriving DecidableEq

/-- Domain events emitted by the manager (`this.emit`) and by the page
(`this._page.emit`), plus the calls into the frame / page objects that the
claims observe (`_onExpectedNewDocumentNavigation`,
`_onCommittedNewDocumentNavigation`, `_onBindingCalled`,
`_addConsoleMessage`). -/
inductive Evt where
  | frameAttached (f : Nat)
  | pageFrameAttached (f : Nat)
  | frameDetached (f : Nat)
  | pageFrameDetached (f : Nat)
  | frameNavigated (f : Nat)
  | pageFrameNavigated (f : Nat)
  | frameNavigatedWithinDocument (f : Nat)
  | lifecycleEvent (f : Nat)
  | pageLoad
  | pageDOMContentLoaded
  | expectedNav (f : Nat) (documentId : String)
  | committedNav (f : Nat) (documentId : String)
  | bindingCalled (payload : Option String) (ctx : Option Nat)
  | consoleMessage (derivedType : String) (handles : List Handle)
      (url : String) (lineNumber columnNumber : Nat) (text : Option String)
deriving DecidableEq

/-- Heap record of one `frames.Frame` object plus its attached
`FrameData`.  Modelled from the spec: a Frame holds a parent
back-reference, an ordered set of child frames, the set of fired lifecycle
events for the current document, a detached flag, last committed url/name
and document id, and its current main-world and utility-world execution
contexts.  `dataId` is the `FrameData.id` stored under `frameDataSymbol`
(lines 51-54, 214-216 of the source). -/
structure FrameObj where
  dataId : String
  parent : Option Nat
  childList : List Nat
  fired : List LifecycleEvent
  detached : Bool
  url : String
  name : String
  docId : Option String
  mainCtx : Option Nat
  utilityCtx : Option Nat
deriving DecidableEq

/-- Heap record of one `js.ExecutionContext` as the registry sees it: the
frame it belongs to and how `_onExecutionContextCreated` classified it. -/
structure CtxObj where
  frame : Nat
  isPageContext : Bool
  name : String
deriving DecidableEq

/-- `Protocol.Page.Frame` payload as used by `_onFrameNavigated`. -/
structure FramePayload where
  id : String
  parentId : Option String
  loaderId : String
  url : String
  name : String
deriving DecidableEq

/-- `Protocol.Runtime.ExecutionContextDescription` payload. -/
structure ContextPayload where
  id : Nat
  frameId : String
  isPageContext : Bool
  name : String
deriving DecidableEq

/-- `Protocol.Console.messageAddedPayload` (the `event.message` record). -/
structure ConsoleMessagePayload where
  type : String
  level : String
  text : String
  parameters : Option (List ConsoleParam)
  url : String
  line : Nat
  column : Nat
deriving DecidableEq

/-- Mutable state of one `FrameManager` instance: the `_frames` registry
(protocol frame id to frame object), the frame-object heap, `_mainFrame`,
the `_contextIdToContext` registry, the module-global `lastDocumentId`
counter (line 56), an allocator for logical frame identities, and the
trace of emitted events. -/
structure FrameManager where
  nextFrame : Nat
  objs : List (Nat × FrameObj)
  registry : List (String × Nat)
  mainFrame : Option Nat
  contexts : List (Nat × CtxObj)
  lastDocumentId : Nat
  events : List Evt
deriving DecidableEq

/-- A freshly constructed `FrameManager` (constructor, lines 71-84). -/
def initFM : FrameManager :=
  { nextFrame := 0, objs := [], registry := [], mainFrame := none,
    contexts := [], lastDocumentId := 0, events := [] }

/-- Finite-map lookup on an association list (JS `Map.get`). -/
def mfind {α β : Type} [DecidableEq α] : List (α × β) → α → Option β
  | [], _ => none
  | (k, v) :: r, k2 => if k = k2 then some v else mfind r k2

/-- Finite-map removal (JS `Map.delete`). -/
def mdel {α β : Type} [DecidableEq α] (m : List (α × β)) (k : α) :
    List (α × β) :=
  m.filter (fun p => p.1 ≠ k)

/-- Finite-map insertion/overwrite (JS `Map.set`). -/
def mput {α β : Type} [DecidableEq α] (m : List (α × β)) (k : α) (v : β) :
    List (α × β) :=
  (k, v) :: mdel m k

/-- In-place update of a heap entry (mutating a field of a held object). -/
def mupd {α β : Type} [DecidableEq α] (m : List (α × β)) (k : α)
    (fn : β → β) : List (α × β) :=
  m.map (fun p => if p.1 = k then (p.1, fn p.2) else p)

/-- `frame(frameId)` query, lines 210-212: `this._frames.get(frameId) || null`. -/
def FrameManager.frame (s : FrameManager) (frameId : String) : Option Nat :=
  mfind s.registry frameId

/-- The `data.id` currently stored on a frame object (`_frameData(frame).id`,
lines 214-216). -/
def frameDataId (s : FrameManager) (f : Nat) : Option String :=
  (mfind s.objs f).map (fun o => o.dataId)

/-- The `parent` reference stored on a frame object. -/
def frameParent (s : FrameManager) (f : Nat) : Option Nat :=
  match mfind s.objs f with
  | some o => o.parent
  | none => none

/-- Insertion into the fired-lifecycle-event set of a frame.  Modelled from
the spec: `frame._lifecycleEvent(event)` records the event in the set of
fired lifecycle events for the current document (set semantics, duplicate
insertion is absorbed). -/
def insertLifecycle (e : LifecycleEvent) (l : List LifecycleEvent) :
    List LifecycleEvent :=
  if e ∈ l then l else l ++ [e]

/-- `_onFrameAttached(frameId, parentFrameId)`, lines 218-232.  The
`assert(!this._frames.has(frameId))` failure is an invariant-violation
error.  `new frames.Frame(this._page, parentFrame)` is modelled from the
spec: the new frame stores the parent back-reference and is appended to the
parent's ordered child set. -/
def FrameManager.onFrameAttached (s : FrameManager) (frameId : String)
    (parentFrameId : Option String) : Except String FrameManager :=
  if (mfind s.registry frameId).isSome then
    .error "ProtocolInvariantViolation: frame id already attached"
  else
    let parentFrame : Option Nat :=
      match parentFrameId with
      | some pid => mfind s.registry pid
      | none => none
    let f := s.nextFrame
    let obj : FrameObj :=
      { dataId := frameId, parent := parentFrame, childList := [],
        fired := [], detached := false, url := "", name := "",
        docId := none, mainCtx := none, utilityCtx := none }
    let objs := mput s.objs f obj
    let objs :=
      match parentFrame with
      | some p => mupd objs p (fun o => { o with childList := o.childList ++ [f] })
      | none => objs
    .ok { s with
      nextFrame := f + 1,
      objs := objs,
      registry := mput s.registry frameId f,
      mainFrame := if parentFrame.isNone then some f else s.mainFrame,
      events := s.events ++ [Evt.frameAttached f, Evt.pageFrameAttached f] }

/-- The tail of `_removeFramesRecursively(frame)` after the recursive child
loop, lines 313-316: `frame._onDetached()` (modelled from the spec: set the
detached flag and remove the frame from its parent's child set), delete the
frame's `data.id` from the registry, and emit `FrameDetached` on the
manager and the page. -/
def detachOne (s : FrameManager) (f : Nat) : FrameManager :=
  match mfind s.objs f with
  | none => s
  | some o =>
    let objs := mupd s.objs f (fun oo => { oo with detached := true })
    let objs :=
      match o.parent with
      | some p => mupd objs p
          (fun po => { po with childList := po.childList.filter (fun c => c ≠ f) })
      | none => objs
    { s with
      objs := objs,
      registry := mdel s.registry o.dataId,
      events := s.events ++ [Evt.frameDetached f, Evt.pageFrameDetached f] }

/-- The `for (const child of frame.childFrames()) this._removeFramesRecursively(child)`
loop (lines 311-312 and 239-240), parameterized by the recursive call;
`childFrames()` returns a snapshot of the ordered child set (modelled from
the spec). -/
def removeListAux (rec : Nat → FrameManager → Option FrameManager) :
    List Nat → FrameManager → Option FrameManager
  | [], s => some s
  | c :: rest, s =>
    match rec c s with
    | none => none
    | some s1 => removeListAux rec rest s1

/-- `_removeFramesRecursively(frame)`, lines 310-317.  The source recursion
is unbounded; here a fuel argument bounds the recursion depth (callers pass
`s.nextFrame`, which bounds the tree depth in any state reachable through
the handlers because a child's logical identity is always allocated after
its parent's).  Running out of fuel yields `none`, as does dereferencing a
frame object that is not on the heap. -/
def removeFramesRecursively : Nat → Nat → FrameManager → Option FrameManager
  | 0, _, _ => none
  | fu + 1, f, s =>
    match mfind s.objs f with
    | none => none
    | some o =>
      match removeListAux (removeFramesRecursively fu) o.childList s with
      | none => none
      | some s1 => some (detachOne s1 f)

/-- The child-removal loop at a given fuel level. -/
def removeList (fuel : Nat) (l : List Nat) (s : FrameManager) :
    Option FrameManager :=
  removeListAux (removeFramesRecursively fuel) l s

/-- `_onFrameDetached(frameId)`, lines 278-282. -/
def FrameManager.onFrameDetached (s : FrameManager) (frameId : String) :
    Option FrameManager :=
  match mfind s.registry frameId with
  | none => some s
  | some f => removeFramesRecursively s.nextFrame f s

/-- `_onFrameNavigated(framePayload, initial)`, lines 234-266.  For a
payload without `parentId` the target is `this._mainFrame`; dereferencing
an absent frame (`frame.childFrames()` on `undefined`) throws, modelled as
`none`.  `frame._onExpectedNewDocumentNavigation` and
`frame._onCommittedNewDocumentNavigation` are modelled from the spec: the
former signals the expected document id to watchers, the latter commits
url/name/document id on the frame and resets the fired lifecycle events
for the new document. -/
def FrameManager.onFrameNavigated (s : FrameManager) (p : FramePayload)
    (initial : Bool) : Option FrameManager :=
  let isMainFrame := p.parentId.isNone
  let frame? := if isMainFrame then s.mainFrame else mfind s.registry p.id
  match frame? with
  | none => none
  | some f =>
    match mfind s.objs f with
    | none => none
    | some o =>
      match removeList s.nextFrame o.childList s with
      | none => none
      | some s1 =>
        let s2 :=
          if isMainFrame then
            match mfind s1.objs f with
            | some o1 =>
              { s1 with
                registry := mput (mdel s1.registry o1.dataId) p.id f,
                objs := mupd s1.objs f (fun oo => { oo with dataId := p.id }) }
            | none => s1
          else s1
        let removedCtxs := (s2.contexts.filter (fun kv => kv.2.frame = f)).map (fun kv => kv.1)
        let s3 :=
          { s2 with
            contexts := s2.contexts.filter (fun kv => kv.2.frame ≠ f),
            objs := mupd s2.objs f (fun oo =>
              { oo with
                mainCtx := match oo.mainCtx with
                  | some c => if c ∈ removedCtxs then none else some c
                  | none => none,
                utilityCtx := match oo.utilityCtx with
                  | some c => if c ∈ removedCtxs then none else some c
                  | none => none }) }
        let n := s3.lastDocumentId + 1
        let documentId := p.loaderId ++ "::" ++ Nat.repr n
        let s4 := { s3 with lastDocumentId := n }
        let s5 :=
          if initial then s4
          else { s4 with events := s4.events ++ [Evt.expectedNav f documentId] }
        let s6 :=
          { s5 with
            objs := mupd s5.objs f (fun oo =>
              { oo with
                url := p.url, name := p.name,
                docId := some documentId, fired := [] }),
            events := s5.events ++ [Evt.committedNav f documentId] }
        some { s6 with events := s6.events ++ [Evt.frameNavigated f, Evt.pageFrameNavigated f] }

/-- `_onFrameNavigatedWithinDocument(frameId, url)`, lines 268-276.
`frame._onCommittedSameDocumentNavigation(url)` is modelled from the spec:
it records the new url on the frame. -/
def FrameManager.onFrameNavigatedWithinDocument (s : FrameManager)
    (frameId : String) (url : String) : Option FrameManager :=
  match mfind s.registry frameId with
  | none => some s
  | some f =>
    some { s with
      objs := mupd s.objs f (fun o => { o with url := url }),
      events := s.events ++
        [Evt.frameNavigatedWithinDocument f, Evt.frameNavigated f, Evt.pageFrameNavigated f] }

/-- `_onFrameStoppedLoading(frameId)`, lines 159-172. -/
def FrameManager.onFrameStoppedLoading (s : FrameManager) (frameId : String) :
    Option FrameManager :=
  match mfind s.registry frameId with
  | none => some s
  | some f =>
    match mfind s.objs f with
    | none => none
    | some o =>
      let hasDOMContentLoaded := LifecycleEvent.domcontentloaded ∈ o.fired
      let hasLoad := LifecycleEvent.load ∈ o.fired
      let objs := mupd s.objs f (fun oo =>
        { oo with fired := insertLifecycle .load (insertLifecycle .domcontentloaded oo.fired) })
      let ev := [Evt.lifecycleEvent f]
        ++ (if s.mainFrame = some f ∧ ¬ hasDOMContentLoaded then [Evt.pageDOMContentLoaded] else [])
        ++ (if s.mainFrame = some f ∧ ¬ hasLoad then [Evt.pageLoad] else [])
      some { s with objs := objs, events := s.events ++ ev }

/-- `_onLifecycleEvent(frameId, event)`, lines 174-186. -/
def FrameManager.onLifecycleEvent (s : FrameManager) (frameId : String)
    (e : LifecycleEvent) : Option FrameManager :=
  match mfind s.registry frameId with
  | none => some s
  | some f =>
    match mfind s.objs f with
    | none => none
    | some _ =>
      let objs := mupd s.objs f (fun oo => { oo with fired := insertLifecycle e oo.fired })
      let ev := [Evt.lifecycleEvent f]
        ++ (if s.mainFrame = some f ∧ e = .load then [Evt.pageLoad] else [])
        ++ (if s.mainFrame = some f ∧ e = .domcontentloaded then [Evt.pageDOMContentLoaded] else [])
      some { s with objs := objs, events := s.events ++ ev }

/-- `_onExecutionContextCreated(contextPayload)`, lines 284-302.
`frame._contextCreated('main' | 'utility', context)` is modelled from the
spec: it installs the context as the frame's current main-world or
utility-world context. -/
def FrameManager.onExecutionContextCreated (s : FrameManager)
    (cp : ContextPayload) : Option FrameManager :=
  if (mfind s.contexts cp.id).isSome then some s
  else
    match mfind s.registry cp.frameId with
    | none => some s
    | some f =>
      let ctx : CtxObj :=
        { frame := f, isPageContext := cp.isPageContext, name := cp.name }
      let objs :=
        if cp.isPageContext then
          mupd s.objs f (fun o => { o with mainCtx := some cp.id })
        else if cp.name = UTILITY_WORLD_NAME then
          mupd s.objs f (fun o => { o with utilityCtx := some cp.id })
        else s.objs
      some { s with objs := objs, contexts := mput s.contexts cp.id ctx }

/-- Hydration of console parameters into handles (lines 390-399): a
parameter with an `objectId` is created in the context registered under the
parsed `injectedScriptId` (an absent context makes `_createHandle` throw on
`undefined`); a plain value is created in the main frame's current
execution context. -/
def hydrate (ctxs : List (Nat × CtxObj)) (mainFrameContext : Nat) :
    List ConsoleParam → Option (List Handle)
  | [] => some []
  | p :: rest =>
    let c? : Option Nat :=
      match p.objectId with
      | some oid => if (mfind ctxs oid).isSome then some oid else none
      | none => some mainFrameContext
    match c? with
    | none => none
    | some c => (hydrate ctxs mainFrameContext rest).map
        (fun hs => { ctx := c, param := p } :: hs)

/-- `_onConsoleMessage(event)`, lines 375-401.  The binding branch requires
`level === 'debug'` and a first parameter whose value is the sentinel;
`mainFrame().executionContext()` is modelled from the spec as the main
frame's current main-world context (an absent main frame or context means
the call cannot produce a message, modelled as `none`). -/
def FrameManager.onConsoleMessage (s : FrameManager)
    (ev : ConsoleMessagePayload) : Option FrameManager :=
  let bindingCheck : Option Bool :=
    if ev.level = "debug" then
      match ev.parameters with
      | none => some false
      | some [] => none
      | some (p0 :: _) => some (p0.value = some BINDING_CALL_MESSAGE)
    else some false
  match bindingCheck with
  | none => none
  | some true =>
    match ev.parameters with
    | some (_ :: p1 :: p2 :: _) =>
      match p1.objectId with
      | none => none
      | some oid =>
        let context : Option Nat :=
          if (mfind s.contexts oid).isSome then some oid else none
        some { s with events := s.events ++ [Evt.bindingCalled p2.value context] }
    | _ => none
  | some false =>
    let derivedType :=
      if ev.type = "log" then ev.level
      else if ev.type = "timing" then "timeEnd"
      else ev.type
    match s.mainFrame with
    | none => none
    | some mf =>
      match mfind s.objs mf with
      | none => none
      | some mo =>
        match mo.mainCtx with
        | none => none
        | some mfc =>
          match hydrate s.contexts mfc (ev.parameters.getD []) with
          | none => none
          | some handles =>
            some { s with events := s.events ++
              [Evt.consoleMessage derivedType handles ev.url (ev.line - 1) (ev.column - 1)
                (if handles.length ≠ 0 then none else some ev.text)] }

/-- Options record for `navigateFrame` / `waitForFrameNavigation` /
`setFrameContent` (`frames.GotoOptions` / `frames.NavigateOptions`); an
omitted entry is `none`. -/
structure NavigateOptions where
  timeout : Option Nat
  waitUntil : Option (List LifecycleEvent)
deriving DecidableEq

/-- Observable outcome of one watcher-using call: the parameters the
`LifecycleWatcher` was constructed with, whether `dispose()` was reached,
and the call's own result. -/
structure WatcherCallResult where
  watcherWaitUntil : List LifecycleEvent
  watcherTimeout : Nat
  watcherDisposed : Bool
  outcome : Except String Unit

/-- `navigateFrame`, lines 319-335, as a function of the two external
outcomes the control flow depends on: whether the awaited
`session.send('Page.navigate')` resolves or rejects, and the value of the
watcher promise race (`none` is a null/success resolution).
`this._page._timeoutSettings.navigationTimeout()` is modelled from the
spec as the page-level configured navigation timeout. -/
def navigateFrameModel (pageNavigationTimeout : Nat) (opts : NavigateOptions)
    (sendResult : Except String Unit) (raceResult : Option String) :
    WatcherCallResult :=
  let timeout := opts.timeout.getD pageNavigationTimeout
  let waitUntil := opts.waitUntil.getD [LifecycleEvent.load]
  match sendResult with
  | .error e =>
    { watcherWaitUntil := waitUntil, watcherTimeout := timeout,
      watcherDisposed := false, outcome := .error e }
  | .ok _ =>
    match raceResult with
    | some e =>
      { watcherWaitUntil := waitUntil, watcherTimeout := timeout,
        watcherDisposed := true, outcome := .error e }
    | none =>
      { watcherWaitUntil := waitUntil, watcherTimeout := timeout,
        watcherDisposed := true, outcome := .ok () }

/-- `waitForFrameNavigation`, lines 337-352: no awaited step precedes the
race. -/
def waitForFrameNavigationModel (pageNavigationTimeout : Nat)
    (opts : NavigateOptions) (raceResult : Option String) :
    WatcherCallResult :=
  let timeout := opts.timeout.getD pageNavigationTimeout
  let waitUntil := opts.waitUntil.getD [LifecycleEvent.load]
  match raceResult with
  | some e =>
    { watcherWaitUntil := waitUntil, watcherTimeout := timeout,
      watcherDisposed := true, outcome := .error e }
  | none =>
    { watcherWaitUntil := waitUntil, watcherTimeout := timeout,
      watcherDisposed := true, outcome := .ok () }

/-- `setFrameContent`, lines 354-373, as a function of whether the awaited
`frame.evaluate(...)` resolves or rejects and of the race value. -/
def setFrameContentModel (pageNavigationTimeout : Nat) (opts : NavigateOptions)
    (evaluateResult : Except String Unit) (raceResult : Option String) :
    WatcherCallResult :=
  let timeout := opts.timeout.getD pageNavigationTimeout
  let waitUntil := opts.waitUntil.getD [LifecycleEvent.load]
  match evaluateResult with
  | .error e =>
    { watcherWaitUntil := waitUntil, watcherTimeout := timeout,
      watcherDisposed := false, outcome := .error e }
  | .ok _ =>
    match raceResult with
    | some e =>
      { watcherWaitUntil := waitUntil, watcherTimeout := timeout,
        watcherDisposed := true, outcome := .error e }
    | none =>
      { watcherWaitUntil := waitUntil, watcherTimeout := timeout,
        watcherDisposed := true, outcome := .ok () }

/-- Satisfaction of a watcher's required lifecycle-event set.  Modelled
from the spec: `LifecycleSettled` fires when every lifecycle event in the
watcher's required set has fired for the current document (set membership
only). -/
def lifecycleSatisfied (required fired : List LifecycleEvent) : Bool :=
  required.all (fun e => e ∈ fired)

/-- A finite frame tree used to describe the shape of a subtree of the
frame registry in a given state (the logical identities of a node and its
children). -/
inductive FTree where
  | node (f : Nat) (children : List FTree)

/-- Root identity of a frame tree. -/
def FTree.root : FTree → Nat
  | node f _ => f

mutual

/-- Postorder traversal (children first, then the node). -/
def FTree.postorder : FTree → List Nat
  | .node f cs => FTree.postorderL cs ++ [f]

/-- Postorder traversal of a forest. -/
def FTree.postorderL : List FTree → List Nat
  | [] => []
  | c :: rest => FTree.postorder c ++ FTree.postorderL rest

end

/-- Number of nodes of a frame tree. -/
def FTree.size (t : FTree) : Nat :=
  t.postorder.length

mutual

/-- Height of a frame tree (a leaf has height 1). -/
def FTree.height : FTree → Nat
  | .node _ cs => FTree.heightL cs + 1

/-- Maximal height over a forest. -/
def FTree.heightL : List FTree → Nat
  | [] => 0
  | c :: rest => max (FTree.height c) (FTree.heightL rest)

end

mutual

/-- `subtreeOk s t` states that `t` describes an actual subtree of the
heap in state `s`: every node is on the heap, its stored child list is
exactly the list of roots of its children in `t`, and every child's stored
parent reference is the node. -/
def subtreeOk (s : FrameManager) : FTree → Bool
  | .node f cs =>
    match mfind s.objs f with
    | none => false
    | some o => decide (o.childList = cs.map FTree.root) && childrenOk s f cs

/-- Forest version of `subtreeOk`: additionally each root's stored parent
is `f`. -/
def childrenOk (s : FrameManager) (f : Nat) : List FTree → Bool
  | [] => true
  | c :: rest =>
    decide (frameParent s c.root = some f) && subtreeOk s c && childrenOk s f rest

end

/-- The pair of detach events (manager-level and page-level) emitted for
each removed frame, in removal order. -/
def detachEvents (l : List Nat) : List Evt :=
  l.flatMap (fun f => [Evt.frameDetached f, Evt.pageFrameDetached f])

/-- Protocol frame ids of a list of frames in state `s`. -/
def dataIdsOf (s : FrameManager) (l : List Nat) : List String :=
  l.filterMap (frameDataId s)

/-- Projection selecting manager-level `FrameDetached` events. -/
def mgrDetachedOf : Evt → Option Nat
  | .frameDetached f => some f
  | _ => none

/-- Projection selecting page-level `FrameDetached` events. -/
def pageDetachedOf : Evt → Option Nat
  | .pageFrameDetached f => some f
  | _ => none

/-- The committed document ids recorded in the event trace, in commit
order. -/
def docIdsOf (s : FrameManager) : List String :=
  s.events.filterMap (fun e =>
    match e with
    | .committedNav _ d => some d
    | _ => none)

/-- The maximal run of non-colon characters at the end of a string,
reversed.  For a document id `loaderId ++ "::" ++ Nat.repr n` this is
exactly the reversed decimal rendering of `n`, whatever the loader id is. -/
def counterChars (d : String) : List Char :=
  d.data.reverse.takeWhile (fun c => c ≠ ':')

/-- Numeric value of a reversed digit run (inverse of decimal rendering). -/
def valOfRevDigits (l : List Char) : Nat :=
  l.reverse.foldl (fun a c => a * 10 + (c.toNat - ('0').toNat)) 0

/-- A frame currently present in the `_frames` registry. -/
def Registered (s : FrameManager) (f : Nat) : Prop :=
  ∃ k, mfind s.registry k = some f

/-- Structural well-formedness of the registry: keys are unique, every
registered frame is a live heap object stored under its own `data.id` and
allocated below `nextFrame`, the main-frame pointer is the unique
parentless registered frame (or the registry is empty and no main frame is
installed yet), and child lists and parent references describe one tree
whose logical identities increase from parent to child. -/
structure RegInv (s : FrameManager) : Prop where
  nodupKeys : (s.registry.map Prod.fst).Nodup
  regObj : ∀ k f, mfind s.registry k = some f →
    ∃ o, mfind s.objs f = some o ∧ o.dataId = k ∧ o.detached = false ∧ f < s.nextFrame
  mainOk : (s.registry = [] ∧ s.mainFrame = none) ∨
    (∃ m, s.mainFrame = some m ∧ Registered s m ∧ frameParent s m = none ∧
      ∀ f, Registered s f → frameParent s f = none → f = m)
  childOk : ∀ p o, Registered s p → mfind s.objs p = some o →
    ∀ c ∈ o.childList, Registered s c ∧ frameParent s c = some p ∧ p < c
  parentOk : ∀ c p, Registered s c → frameParent s c = some p →
    Registered s p ∧ ∃ o, mfind s.objs p = some o ∧ c ∈ o.childList
  heapOrder : ∀ g o, mfind s.objs g = some o → ∀ c ∈ o.childList, g < c

/-- States reachable from a fresh manager through attach / navigate /
detach events, restricted to the well-formed protocol traffic of a real
browser session: a root attach only into an empty registry, a child attach
only under a currently registered parent, and no detach of the current
main frame. -/
inductive GoodReach : FrameManager → Prop where
  | init : GoodReach initFM
  | attachRoot (s s2 : FrameManager) (frameId : String) :
      GoodReach s → s.registry = [] →
      FrameManager.onFrameAttached s frameId none = .ok s2 → GoodReach s2
  | attachChild (s s2 : FrameManager) (frameId pid : String) (p : Nat) :
      GoodReach s → mfind s.registry pid = some p →
      FrameManager.onFrameAttached s frameId (some pid) = .ok s2 → GoodReach s2
  | navigated (s s2 : FrameManager) (p : FramePayload) (b : Bool) :
      GoodReach s → FrameManager.onFrameNavigated s p b = some s2 → GoodReach s2
  | navigatedWithin (s s2 : FrameManager) (frameId url : String) :
      GoodReach s →
      FrameManager.onFrameNavigatedWithinDocument s frameId url = some s2 →
      GoodReach s2
  | detached (s s2 : FrameManager) (frameId : String) :
      GoodReach s →
      (∀ f, mfind s.registry frameId = some f → s.mainFrame ≠ some f) →
      FrameManager.onFrameDetached s frameId = some s2 → GoodReach s2

/-- States reachable from a fresh manager through any sequence of
successful handler invocations (no restriction on payloads). -/
inductive Reach : FrameManager → Prop where
  | init : Reach initFM
  | attached (s s2 : FrameManager) (frameId : String) (pid : Option String) :
      Reach s → FrameManager.onFrameAttached s frameId pid = .ok s2 → Reach s2
  | navigated (s s2 : FrameManager) (p : FramePayload) (b : Bool) :
      Reach s → FrameManager.onFrameNavigated s p b = some s2 → Reach s2
  | navigatedWithin (s s2 : FrameManager) (frameId url : String) :
      Reach s →
      FrameManager.onFrameNavigatedWithinDocument s frameId url = some s2 →
      Reach s2
  | detached (s s2 : FrameManager) (frameId : String) :
      Reach s → FrameManager.onFrameDetached s frameId = some s2 → Reach s2
  | stoppedLoading (s s2 : FrameManager) (frameId : String) :
      Reach s → FrameManager.onFrameStoppedLoading s frameId = some s2 → Reach s2
  | lifecycle (s s2 : FrameManager) (frameId : String) (e : LifecycleEvent) :
      Reach s → FrameManager.onLifecycleEvent s frameId e = some s2 → Reach s2
  | contextCreated (s s2 : FrameManager) (cp : ContextPayload) :
      Reach s → FrameManager.onExecutionContextCreated s cp = some s2 → Reach s2
  | consoleMessage (s s2 : FrameManager) (ev : ConsoleMessagePayload) :
      Reach s → FrameManager.onConsoleMessage s ev = some s2 → Reach s2

/-- Concrete state with one attached main frame `"a"`. -/
def attachedA : FrameManager :=
  (FrameManager.onFrameAttached initFM ("a") none).toOption.getD initFM

/-- Concrete state with main frame `"a"` and child frame `"b"`. -/
def attachedAB : FrameManager :=
  (FrameManager.onFrameAttached attachedA ("b") (some ("a"))).toOption.getD attachedA

/-- Concrete state with main frame `"a"`, child `"b"`, grandchild `"c"`. -/
def attachedABC : FrameManager :=
  (FrameManager.onFrameAttached attachedAB ("c") (some ("b"))).toOption.getD attachedAB

/-- Concrete state with main frame `"a"` owning a page (main-world)
execution context with id `5`. -/
def withPageCtx : FrameManager :=
  (FrameManager.onExecutionContextCreated attachedA
    { id := 5, frameId := ("a"), isPageContext := true, name := ("") }).getD attachedA

/-- Two cross-process main-frame navigation payloads sharing the same
loader id `"L"`. -/
def navPayB : FramePayload :=
  { id := ("b2"), parentId := none, loaderId := ("L"), url := ("u1"), name := ("") }

/-- Second navigation payload with the colliding loader id. -/
def navPayC : FramePayload :=
  { id := ("c2"), parentId := none, loaderId := ("L"), url := ("u2"), name := ("") }

/-- State after one main-frame navigation of `attachedA`. -/
def navOnce : FrameManager :=
  (FrameManager.onFrameNavigated attachedA navPayB false).getD attachedA

/-- State after two main-frame navigations with the same loader id. -/
def navTwice : FrameManager :=
  (FrameManager.onFrameNavigated navOnce navPayC false).getD navOnce

/-- What one run of the recursive removal does to the state, relative to
the list `rem` of removed frames: every removed frame was on the heap; the
registry only loses entries, namely exactly the keys that are the removed
frames' `data.id`s; heap objects keep every field except that removed
frames are marked detached and child lists can only lose removed members;
a removed frame is no longer in its parent's child list; and nothing else
(main frame, contexts, allocator, document counter) changes, while events
are only appended. -/
structure RemovalSpec (s s2 : FrameManager) (rem : List Nat) : Prop where
  heapEx : ∀ x ∈ rem, ∃ o, mfind s.objs x = some o
  regFilter : ∃ P : String → Bool, s2.registry = s.registry.filter (fun kv => P kv.1)
  regPoint : ∀ k, mfind s2.registry k =
    if k ∈ rem.filterMap (frameDataId s) then none else mfind s.registry k
  objNone : ∀ g, mfind s.objs g = none → mfind s2.objs g = none
  objSome : ∀ g o, mfind s.objs g = some o → ∃ o2, mfind s2.objs g = some o2 ∧
    o2.dataId = o.dataId ∧ o2.parent = o.parent ∧ o2.fired = o.fired ∧
    o2.url = o.url ∧ o2.name = o.name ∧ o2.docId = o.docId ∧
    o2.mainCtx = o.mainCtx ∧ o2.utilityCtx = o.utilityCtx ∧
    o2.childList ⊆ o.childList ∧
    (∀ c ∈ o.childList, c ∈ o2.childList ∨ c ∈ rem) ∧
    o2.detached = (o.detached || decide (g ∈ rem))
  absent : ∀ x ∈ rem, ∀ p, frameParent s x = some p →
    ∀ o2, mfind s2.objs p = some o2 → x ∉ o2.childList
  sameMain : s2.mainFrame = s.mainFrame
  sameCtxs : s2.contexts = s.contexts
  sameNext : s2.nextFrame = s.nextFrame
  sameDoc : s2.lastDocumentId = s.lastDocumentId
  evAppend : ∃ tail : List Evt, s2.events = s.events ++ tail

/-! ### Association-list lemmas -/

theorem mdel_cons {α β : Type} [DecidableEq α] (a : α) (b : β) (r : List (α × β))
    (k : α) :
    mdel ((a, b) :: r) k = if a = k then mdel r k else (a, b) :: mdel r k := by
  by_cases h : a = k <;> simp [mdel, List.filter_cons, h]

theorem mfind_mdel_self {α β : Type} [DecidableEq α] (m : List (α × β)) (k : α) :
    mfind (mdel m k) k = none := by
  induction m with
  | nil => rfl
  | cons p r ih =>
    obtain ⟨a, b⟩ := p
    by_cases h : a = k
    · simpa [mdel_cons, mfind, h] using ih
    · simpa [mdel_cons, mfind, h] using ih

theorem mfind_mdel_ne {α β : Type} [DecidableEq α] (m : List (α × β)) (k k2 : α)
    (h : k ≠ k2) : mfind (mdel m k) k2 = mfind m k2 := by
  induction m with
  | nil => rfl
  | cons p r ih =>
    obtain ⟨a, b⟩ := p
    by_cases h1 : a = k
    · subst h1; simpa [mdel_cons, mfind, h] using ih
    · by_cases h2 : a = k2 <;> simp [mdel_cons, mfind, h1, h2, ih, Ne.symm h]

theorem mfind_mput_self {α β : Type} [DecidableEq α] (m : List (α × β)) (k : α) (v : β) :
    mfind (mput m k v) k = some v := by
  simp [mput, mfind]

theorem mfind_mput_ne {α β : Type} [DecidableEq α] (m : List (α × β)) (k k2 : α) (v : β)
    (h : k ≠ k2) : mfind (mput m k v) k2 = mfind m k2 := by
  simp [mput, mfind, h]
  exact mfind_mdel_ne m k k2 h

theorem mupd_cons_self {α β : Type} [DecidableEq α] (a : α) (b : β)
    (r : List (α × β)) (fn : β → β) :
    mupd ((a, b) :: r) a fn = (a, fn b) :: mupd r a fn := by
  simp [mupd]

theorem mupd_cons_ne {α β : Type} [DecidableEq α] (a : α) (b : β)
    (r : List (α × β)) (k : α) (fn : β → β) (h : a ≠ k) :
    mupd ((a, b) :: r) k fn = (a, b) :: mupd r k fn := by
  simp [mupd, h]

theorem mfind_mupd_self {α β : Type} [DecidableEq α] (m : List (α × β)) (k : α)
    (fn : β → β) : mfind (mupd m k fn) k = (mfind m k).map fn := by
  induction m with
  | nil => rfl
  | cons p r ih =>
    obtain ⟨a, b⟩ := p
    by_cases h : a = k
    · subst h; rw [mupd_cons_self]; simp [mfind]
    · rw [mupd_cons_ne _ _ _ _ _ h]; simp [mfind, h, ih]

theorem mfind_mupd_ne {α β : Type} [DecidableEq α] (m : List (α × β)) (k k2 : α)
    (fn : β → β) (h : k ≠ k2) : mfind (mupd m k fn) k2 = mfind m k2 := by
  induction m with
  | nil => rfl
  | cons p r ih =>
    obtain ⟨a, b⟩ := p
    by_cases h1 : a = k
    · subst h1; rw [mupd_cons_self]; simp [mfind, h, ih]
    · rw [mupd_cons_ne _ _ _ _ _ h1]
      by_cases h2 : a = k2 <;> simp [mfind, h1, h2, ih]

theorem mfind_filter_key {α β : Type} [DecidableEq α] (m : List (α × β))
    (q : α → Bool) (k : α) :
    mfind (m.filter (fun p => q p.1)) k = if q k then mfind m k else none := by
  induction m with
  | nil => simp [mfind]
  | cons p r ih =>
    obtain ⟨a, b⟩ := p
    by_cases h2 : a = k
    · subst h2
      by_cases hq : q a <;> simp [mfind, hq, ih]
    · by_cases hq : q a <;> simp [mfind, hq, ih, h2]

/-! ### Claim C3: watcher disposal (code bug evidence) -/

/-- C3: the claim states that the `LifecycleWatcher` created by
`navigateFrame`, `waitForFrameNavigation` and `setFrameContent` is
disposed on every exit path, including an early exit caused by the awaited
`Page.navigate` send or `frame.evaluate` rejecting.  The code reaches
`watchDog.dispose()` only after the race: when the awaited step rejects,
the watcher is left undisposed, contradicting the claim (and the spec's
stated disposal requirement); on the race-resolution paths disposal does
happen. -/
theorem c3_watcher_disposal :
    (navigateFrameModel 0 { timeout := none, waitUntil := none }
      (.error ("Protocol error")) none).watcherDisposed = false
    ∧ (setFrameContentModel 0 { timeout := none, waitUntil := none }
      (.error ("Evaluation failed")) none).watcherDisposed = false
    ∧ (∀ p opts race, (waitForFrameNavigationModel p opts race).watcherDisposed = true)
    ∧ (∀ p opts race, (navigateFrameModel p opts (.ok ()) race).watcherDisposed = true)
    ∧ (∀ p opts race, (setFrameContentModel p opts (.ok ()) race).watcherDisposed = true) := by
  refine ⟨rfl, rfl, ?_, ?_, ?_⟩ <;> intro p opts race <;> cases race <;> rfl

/-! ### Claim C9: execution-context creation -/

/-- C9: `_onExecutionContextCreated` is idempotent by context id (a payload
whose id is already registered changes nothing, the original context
remains) and is a silent no-op when the payload's `frameId` is not in the
frame registry. -/
theorem c9_context_create_idempotent_noop (s : FrameManager) (cp : ContextPayload) :
    ((mfind s.contexts cp.id).isSome = true →
      FrameManager.onExecutionContextCreated s cp = some s)
    ∧ (FrameManager.frame s cp.frameId = none →
      FrameManager.onExecutionContextCreated s cp = some s) := by
  constructor
  · intro h
    simp [FrameManager.onExecutionContextCreated, h]
  · intro h
    have h2 : mfind s.registry cp.frameId = none := h
    by_cases h1 : (mfind s.contexts cp.id).isSome
    · simp [FrameManager.onExecutionContextCreated, h1]
    · simp [FrameManager.onExecutionContextCreated, h1, h2]

/-- Witness for C9 at concrete inputs: a duplicate create against the
state owning context `5` is a no-op, and a create for an unknown frame id
on a fresh manager is a no-op. -/
theorem c9_witness :
    FrameManager.onExecutionContextCreated withPageCtx
      { id := 5, frameId := ("a"), isPageContext := false, name := ("w") } = some withPageCtx
    ∧ FrameManager.onExecutionContextCreated initFM
      { id := 7, frameId := ("nope"), isPageContext := true, name := ("") } = some initFM :=
  ⟨(c9_context_create_idempotent_noop withPageCtx
      { id := 5, frameId := ("a"), isPageContext := false, name := ("w") }).1 (by decide),
   (c9_context_create_idempotent_noop initFM
      { id := 7, frameId := ("nope"), isPageContext := true, name := ("") }).2 (by decide)⟩

/-! ### Claim C10: navigation defaults -/

/-- C10: with `waitUntil` omitted the watcher's required lifecycle set is
exactly `['load']`, with `timeout` omitted the page-level configured
navigation timeout is used (both for `navigateFrame` and
`waitForFrameNavigation`), and a document that fired only
`domcontentloaded` does not satisfy the default required set. -/
theorem c10_navigation_defaults :
    (∀ p t sr race, (navigateFrameModel p { timeout := t, waitUntil := none } sr race).watcherWaitUntil
      = [LifecycleEvent.load])
    ∧ (∀ p w sr race, (navigateFrameModel p { timeout := none, waitUntil := w } sr race).watcherTimeout = p)
    ∧ (∀ p t race, (waitForFrameNavigationModel p { timeout := t, waitUntil := none } race).watcherWaitUntil
      = [LifecycleEvent.load])
    ∧ (∀ p w race, (waitForFrameNavigationModel p { timeout := none, waitUntil := w } race).watcherTimeout = p)
    ∧ lifecycleSatisfied [LifecycleEvent.load] [LifecycleEvent.domcontentloaded] = false := by
  refine ⟨?_, ?_, ?_, ?_, by decide⟩
  · intro p t sr race; cases sr <;> cases race <;> rfl
  · intro p w sr race; cases sr <;> cases race <;> rfl
  · intro p t race; cases race <;> rfl
  · intro p w race; cases race <;> rfl

/-! ### Claim C5: unknown-frame events (corrected) -/

/-- C5 (amended): for an event referencing a frame id not in the registry,
`_onFrameNavigatedWithinDocument`, `_onFrameDetached`,
`_onFrameStoppedLoading` and `_onLifecycleEvent` all return normally
without changing the state; but `_onFrameNavigated` for a subframe payload
whose id is unknown throws (dereferences an absent frame), so the claim's
inclusion of `_onFrameNavigated` fails on the code. -/
theorem c5_unknown_frame_router (s : FrameManager) (frameId url : String)
    (e : LifecycleEvent) (p : FramePayload) (b : Bool) (pid : String) :
    (FrameManager.frame s frameId = none →
      FrameManager.onFrameNavigatedWithinDocument s frameId url = some s
      ∧ FrameManager.onFrameDetached s frameId = some s
      ∧ FrameManager.onFrameStoppedLoading s frameId = some s
      ∧ FrameManager.onLifecycleEvent s frameId e = some s)
    ∧ (p.parentId = some pid → FrameManager.frame s p.id = none →
      FrameManager.onFrameNavigated s p b = none) := by
  constructor
  · intro h
    have h2 : mfind s.registry frameId = none := h
    refine ⟨?_, ?_, ?_, ?_⟩ <;>
      simp [FrameManager.onFrameNavigatedWithinDocument, FrameManager.onFrameDetached,
        FrameManager.onFrameStoppedLoading, FrameManager.onLifecycleEvent, h2]
  · intro hp h
    have h2 : mfind s.registry p.id = none := h
    simp [FrameManager.onFrameNavigated, hp, h2]

/-- Counterexample for C5 as stated: `_onFrameNavigated` with a subframe
payload (`parentId` present) for a never-attached frame id does not return
normally; it throws (modelled as `none`). -/
theorem c5_counterexample_subframe_navigate_throws :
    FrameManager.onFrameNavigated initFM
      { id := ("x"), parentId := some ("p"), loaderId := ("L"),
        url := ("u"), name := ("") } false = none := by
  decide

/-- Witness for C5 at concrete inputs: all four guarded handlers are
no-ops on a fresh manager for an unknown id. -/
theorem c5_witness :
    FrameManager.onFrameNavigatedWithinDocument initFM ("x") ("u") = some initFM
    ∧ FrameManager.onFrameDetached initFM ("x") = some initFM
    ∧ FrameManager.onFrameStoppedLoading initFM ("x") = some initFM
    ∧ FrameManager.onLifecycleEvent initFM ("x") .load = some initFM := by
  have h := (c5_unknown_frame_router initFM ("x") ("u") .load
    { id := ("x"), parentId := some ("p"), loaderId := ("L"), url := ("u"), name := ("") }
    false ("p")).1 (by decide)
  exact h

/-! ### Claim C6: lifecycle synthesis on frameStoppedLoading -/

/-- C6: a `frameStoppedLoading` event for a registered frame records both
`domcontentloaded` and `load` in the frame's fired set; the page-level
convenience events are emitted (for the main frame) exactly for the
lifecycle events not already seen, so a main frame with `domcontentloaded`
but not `load` gets exactly one page-level `Load` and no additional
page-level `DOMContentLoaded`. -/
theorem c6_lifecycle_synthesis (s : FrameManager) (frameId : String) (f : Nat)
    (o : FrameObj)
    (hf : FrameManager.frame s frameId = some f)
    (ho : mfind s.objs f = some o)
    (hm : s.mainFrame = some f) :
    ∃ s2, FrameManager.onFrameStoppedLoading s frameId = some s2
      ∧ s2.events = s.events ++ [Evt.lifecycleEvent f]
          ++ (if LifecycleEvent.domcontentloaded ∈ o.fired then [] else [Evt.pageDOMContentLoaded])
          ++ (if LifecycleEvent.load ∈ o.fired then [] else [Evt.pageLoad])
      ∧ (∀ o2, mfind s2.objs f = some o2 →
          LifecycleEvent.load ∈ o2.fired ∧ LifecycleEvent.domcontentloaded ∈ o2.fired)
      ∧ (LifecycleEvent.domcontentloaded ∈ o.fired → LifecycleEvent.load ∉ o.fired →
          s2.events = s.events ++ [Evt.lifecycleEvent f, Evt.pageLoad]) := by
  have hf2 : mfind s.registry frameId = some f := hf
  have hstep : FrameManager.onFrameStoppedLoading s frameId = some
      { s with
        objs := mupd s.objs f (fun oo =>
          { oo with fired := insertLifecycle .load (insertLifecycle .domcontentloaded oo.fired) }),
        events := s.events ++ ([Evt.lifecycleEvent f]
          ++ (if s.mainFrame = some f ∧ ¬ LifecycleEvent.domcontentloaded ∈ o.fired
              then [Evt.pageDOMContentLoaded] else [])
          ++ (if s.mainFrame = some f ∧ ¬ LifecycleEvent.load ∈ o.fired
              then [Evt.pageLoad] else [])) } := by
    simp only [FrameManager.onFrameStoppedLoading, hf2, ho]
  refine ⟨_, hstep, ?_, ?_, ?_⟩
  · simp only [hm, true_and]
    by_cases hd : LifecycleEvent.domcontentloaded ∈ o.fired <;>
      by_cases hl : LifecycleEvent.load ∈ o.fired <;>
        simp [hd, hl]
  · intro o2 ho2
    simp only [mfind_mupd_self, ho, Option.map_some', Option.some.injEq] at ho2
    subst ho2
    constructor
    · simp only [insertLifecycle]
      by_cases hd : LifecycleEvent.domcontentloaded ∈ o.fired <;>
        by_cases hl : LifecycleEvent.load ∈ o.fired <;> simp [hd, hl]
    · simp only [insertLifecycle]
      by_cases hd : LifecycleEvent.domcontentloaded ∈ o.fired <;>
        by_cases hl : LifecycleEvent.load ∈ o.fired <;> simp [hd, hl]
  · intro hd hl
    simp [hm, hd, hl]

/-- Witness for C6 at a concrete input: main frame `"a"` with only
`domcontentloaded` fired, then `frameStoppedLoading`. -/
theorem c6_witness :
    ∃ s2, FrameManager.onFrameStoppedLoading
        ((FrameManager.onLifecycleEvent attachedA ("a") .domcontentloaded).getD attachedA)
        ("a") = some s2
      ∧ (∃ base : List Evt, s2.events = base ++ [Evt.lifecycleEvent 0, Evt.pageLoad]) := by
  obtain ⟨s2, h1, _, _, h4⟩ := c6_lifecycle_synthesis
    ((FrameManager.onLifecycleEvent attachedA ("a") .domcontentloaded).getD attachedA)
    ("a") 0
    { dataId := ("a"), parent := none, childList := [], fired := [LifecycleEvent.domcontentloaded],
      detached := false, url := (""), name := (""), docId := none, mainCtx := none,
      utilityCtx := none }
    (by decide) (by decide) (by decide)
  exact ⟨s2, h1, ⟨_, h4 (by decide) (by decide)⟩⟩

/-! ### Claim C7: console routing (corrected) -/

theorem hydrate_char (ctxs : List (Nat × CtxObj)) (mfc : Nat) :
    ∀ (ps : List ConsoleParam) (hs : List Handle), hydrate ctxs mfc ps = some hs →
      hs.length = ps.length ∧
      ∀ (i : Nat) (p : ConsoleParam), ps[i]? = some p →
        ∃ h2, hs[i]? = some h2 ∧ h2.param = p ∧
          ((p.objectId = none ∧ h2.ctx = mfc) ∨
           (∃ oid, p.objectId = some oid ∧ h2.ctx = oid ∧ (mfind ctxs oid).isSome = true)) := by
  intro ps
  induction ps with
  | nil =>
    intro hs h
    simp only [hydrate, Option.some.injEq] at h
    subst h
    exact ⟨rfl, by intro i p hp; simp at hp⟩
  | cons p rest ih =>
    intro hs h
    rcases hoid : p.objectId with _ | oid
    · simp only [hydrate, hoid] at h
      rcases hrest : hydrate ctxs mfc rest with _ | hs2
      · rw [hrest] at h; exact absurd h (by simp)
      · rw [hrest] at h
        simp only [Option.map_some', Option.some.injEq] at h
        subst h
        obtain ⟨hlen, hch⟩ := ih hs2 hrest
        refine ⟨by simp [hlen], ?_⟩
        intro i q hq
        match i with
        | 0 =>
          simp only [List.getElem?_cons_zero, Option.some.injEq] at hq
          subst hq
          exact ⟨{ ctx := mfc, param := p }, by simp, rfl, Or.inl ⟨hoid, rfl⟩⟩
        | Nat.succ j =>
          simp only [List.getElem?_cons_succ] at hq ⊢
          exact hch j q hq
    · simp only [hydrate, hoid] at h
      rcases hfind : mfind ctxs oid with _ | c2
      · rw [hfind] at h; exact absurd h (by simp)
      · rw [hfind] at h
        simp only [Option.isSome_some, if_true] at h
        rcases hrest : hydrate ctxs mfc rest with _ | hs2
        · rw [hrest] at h; exact absurd h (by simp)
        · rw [hrest] at h
          simp only [Option.map_some', Option.some.injEq] at h
          subst h
          obtain ⟨hlen, hch⟩ := ih hs2 hrest
          refine ⟨by simp [hlen], ?_⟩
          intro i q hq
          match i with
          | 0 =>
            simp only [List.getElem?_cons_zero, Option.some.injEq] at hq
            subst hq
            exact ⟨{ ctx := oid, param := p }, by simp, rfl,
              Or.inr ⟨oid, hoid, rfl, by simp [hfind]⟩⟩
          | Nat.succ j =>
            simp only [List.getElem?_cons_succ] at hq ⊢
            exact hch j q hq

/-- C7 (amended): a console message whose level is `debug` and whose first
parameter's value equals the binding sentinel is dispatched to the
binding-call handler with the context decoded from the second parameter's
`objectId`, and no console message is emitted; any other console message
(in particular a sentinel-bearing message whose level is not `debug`,
which the original claim wrongly routed to the binding handler) is
hydrated into handles: parameters carrying an `objectId` in the context
registered under it, plain-value parameters in the main frame's current
execution context. -/
theorem c7_console_routing (s : FrameManager) (ev : ConsoleMessagePayload)
    (p0 p1 p2 : ConsoleParam) (rest : List ConsoleParam) (oid : Nat)
    (mf mfc : Nat) (mo : FrameObj) (hs : List Handle) :
    (ev.level = "debug" → ev.parameters = some (p0 :: p1 :: p2 :: rest) →
      p0.value = some BINDING_CALL_MESSAGE → p1.objectId = some oid →
      FrameManager.onConsoleMessage s ev = some { s with
        events := s.events ++ [Evt.bindingCalled p2.value
          (if (mfind s.contexts oid).isSome then some oid else none)] })
    ∧ ((ev.level ≠ "debug" ∨ ev.parameters = none ∨
        (∃ q0 l, ev.parameters = some (q0 :: l) ∧ q0.value ≠ some BINDING_CALL_MESSAGE)) →
      s.mainFrame = some mf → mfind s.objs mf = some mo → mo.mainCtx = some mfc →
      hydrate s.contexts mfc (ev.parameters.getD []) = some hs →
      FrameManager.onConsoleMessage s ev = some { s with
        events := s.events ++ [Evt.consoleMessage
          (if ev.type = "log" then ev.level else if ev.type = "timing" then "timeEnd" else ev.type)
          hs ev.url (ev.line - 1) (ev.column - 1)
          (if hs.length ≠ 0 then none else some ev.text)] }
      ∧ ∀ (i : Nat) (p : ConsoleParam), (ev.parameters.getD [])[i]? = some p →
          ∃ h2, hs[i]? = some h2 ∧ h2.param = p ∧
          ((p.objectId = none ∧ h2.ctx = mfc) ∨
           (∃ o2, p.objectId = some o2 ∧ h2.ctx = o2 ∧ (mfind s.contexts o2).isSome = true))) := by
  constructor
  · intro hlevel hps hval hoid
    simp [FrameManager.onConsoleMessage, hlevel, hps, hval, hoid]
  · intro hnb hm ho hc hh
    have hfalse : (if ev.level = "debug" then
        match ev.parameters with
        | none => some false
        | some [] => none
        | some (q0 :: _) => some (q0.value = some BINDING_CALL_MESSAGE)
        else some false) = some false := by
      rcases hnb with hnb | hnb | ⟨q0, l, hq, hqv⟩
      · simp [hnb]
      · by_cases hl : ev.level = "debug" <;> simp [hl, hnb]
      · by_cases hl : ev.level = "debug" <;> simp [hl, hq, hqv]
    refine ⟨?_, (hydrate_char s.contexts mfc (ev.parameters.getD []) hs hh).2⟩
    simp only [FrameManager.onConsoleMessage, hfalse, hm, ho, hc, hh]

/-- Counterexample for C7 as stated: a console message whose first
parameter's value equals the binding sentinel but whose level is `log`
(not `debug`) is NOT dispatched to the binding handler; it is emitted as a
page console message. -/
theorem c7_counterexample_sentinel_without_debug :
    FrameManager.onConsoleMessage withPageCtx
      { type := ("log"), level := ("log"), text := ("t"),
        parameters := some [{ value := some BINDING_CALL_MESSAGE, objectId := none }],
        url := ("u"), line := 1, column := 1 }
    = some { withPageCtx with
        events := withPageCtx.events ++ [Evt.consoleMessage ("log")
          [{ ctx := 5, param := { value := some BINDING_CALL_MESSAGE, objectId := none } }]
          ("u") 0 0 none] } := by
  decide

/-- Witness for C7 at concrete inputs: a debug-level sentinel message is
dispatched to the binding handler, and a plain log message is hydrated in
the main frame's context. -/
theorem c7_witness :
    FrameManager.onConsoleMessage withPageCtx
      { type := ("log"), level := ("debug"), text := ("t"),
        parameters := some [{ value := some BINDING_CALL_MESSAGE, objectId := none },
          { value := none, objectId := some 5 },
          { value := some ("payload"), objectId := none }],
        url := ("u"), line := 1, column := 1 }
    = some { withPageCtx with
        events := withPageCtx.events ++ [Evt.bindingCalled (some ("payload")) (some 5)] }
    ∧ FrameManager.onConsoleMessage withPageCtx
      { type := ("log"), level := ("warning"), text := ("t"),
        parameters := some [{ value := some ("x"), objectId := none }],
        url := ("u"), line := 1, column := 1 }
    = some { withPageCtx with
        events := withPageCtx.events ++ [Evt.consoleMessage ("warning")
          [{ ctx := 5, param := { value := some ("x"), objectId := none } }]
          ("u") 0 0 none] } := by
  constructor
  · have h := (c7_console_routing withPageCtx
      { type := ("log"), level := ("debug"), text := ("t"),
        parameters := some [{ value := some BINDING_CALL_MESSAGE, objectId := none },
          { value := none, objectId := some 5 },
          { value := some ("payload"), objectId := none }],
        url := ("u"), line := 1, column := 1 }
      { value := some BINDING_CALL_MESSAGE, objectId := none }
      { value := none, objectId := some 5 }
      { value := some ("payload"), objectId := none } [] 5 0 5
      { dataId := ("a"), parent := none, childList := [], fired := [], detached := false,
        url := (""), name := (""), docId := none, mainCtx := some 5, utilityCtx := none }
      []).1 (by decide) (by decide) (by decide) (by decide)
    exact h.trans (by decide)
  · have h := (c7_console_routing withPageCtx
      { type := ("log"), level := ("warning"), text := ("t"),
        parameters := some [{ value := some ("x"), objectId := none }],
        url := ("u"), line := 1, column := 1 }
      { value := some ("x"), objectId := none }
      { value := some ("x"), objectId := none }
      { value := some ("x"), objectId := none } [] 5 0 5
      { dataId := ("a"), parent := none, childList := [], fired := [], detached := false,
        url := (""), name := (""), docId := none, mainCtx := some 5, utilityCtx := none }
      [{ ctx := 5, param := { value := some ("x"), objectId := none } }]).2
      (Or.inl (by decide)) (by decide) (by decide) (by decide) (by decide)
    exact h.1.trans (by decide)

/-! ### Removal characterization -/

theorem removalSpec_refl (s : FrameManager) : RemovalSpec s s [] := by
  refine ⟨?_, ⟨fun _ => true, by simp⟩, ?_, ?_, ?_, ?_, rfl, rfl, rfl, rfl, ⟨[], by simp⟩⟩
  · intro x hx; simp at hx
  · intro k; simp [dataIdsOf]
  · intro g h; exact h
  · intro g o ho
    exact ⟨o, ho, rfl, rfl, rfl, rfl, rfl, rfl, rfl, rfl, fun _ => id,
      fun c hc => Or.inl hc, by simp⟩
  · intro x hx; simp at hx

theorem removalSpec_heapExFrom {s s1 : FrameManager} {rem1 : List Nat}
    (h1 : RemovalSpec s s1 rem1) (x : Nat) (o1 : FrameObj)
    (hx : mfind s1.objs x = some o1) : ∃ o, mfind s.objs x = some o := by
  rcases ho : mfind s.objs x with _ | o
  · rw [h1.objNone x ho] at hx; exact absurd hx (by simp)
  · exact ⟨o, rfl⟩

theorem removalSpec_dataIdEq {s s1 : FrameManager} {rem1 : List Nat}
    (h1 : RemovalSpec s s1 rem1) (x : Nat) (o : FrameObj)
    (ho : mfind s.objs x = some o) : frameDataId s1 x = frameDataId s x := by
  obtain ⟨o2, ho2, hid, -⟩ := h1.objSome x o ho
  simp [frameDataId, ho, ho2, hid]

theorem removalSpec_parentEq {s s1 : FrameManager} {rem1 : List Nat}
    (h1 : RemovalSpec s s1 rem1) (x : Nat) (o : FrameObj)
    (ho : mfind s.objs x = some o) : frameParent s1 x = frameParent s x := by
  obtain ⟨o2, ho2, -, hpar, -⟩ := h1.objSome x o ho
  simp [frameParent, ho, ho2, hpar]

theorem removalSpec_trans {s s1 s2 : FrameManager} {rem1 rem2 : List Nat}
    (h1 : RemovalSpec s s1 rem1) (h2 : RemovalSpec s1 s2 rem2) :
    RemovalSpec s s2 (rem1 ++ rem2) := by
  have heapS : ∀ x ∈ rem2, ∃ o, mfind s.objs x = some o := by
    intro x hx
    obtain ⟨o1, ho1⟩ := h2.heapEx x hx
    exact removalSpec_heapExFrom h1 x o1 ho1
  have hKeq : rem2.filterMap (frameDataId s1) = rem2.filterMap (frameDataId s) := by
    apply List.filterMap_congr
    intro x hx
    obtain ⟨o, ho⟩ := heapS x hx
    exact removalSpec_dataIdEq h1 x o ho
  refine ⟨?_, ?_, ?_, ?_, ?_, ?_, ?_, ?_, ?_, ?_, ?_⟩
  · intro x hx
    rcases List.mem_append.mp hx with hx | hx
    · exact h1.heapEx x hx
    · exact heapS x hx
  · obtain ⟨P1, e1⟩ := h1.regFilter
    obtain ⟨P2, e2⟩ := h2.regFilter
    exact ⟨fun k => P2 k && P1 k, by rw [e2, e1, List.filter_filter]⟩
  · intro k
    rw [h2.regPoint k, hKeq, h1.regPoint k, List.filterMap_append]
    by_cases hk1 : k ∈ rem1.filterMap (frameDataId s) <;>
      by_cases hk2 : k ∈ rem2.filterMap (frameDataId s) <;>
        simp [hk1, hk2]
  · intro g h
    exact h2.objNone g (h1.objNone g h)
  · intro g o ho
    obtain ⟨o1, ho1, e1a, e1b, e1c, e1d, e1e, e1f, e1g, e1h, sub1, mid1, det1⟩ :=
      h1.objSome g o ho
    obtain ⟨o2, ho2, e2a, e2b, e2c, e2d, e2e, e2f, e2g, e2h, sub2, mid2, det2⟩ :=
      h2.objSome g o1 ho1
    refine ⟨o2, ho2, e2a.trans e1a, e2b.trans e1b, e2c.trans e1c, e2d.trans e1d,
      e2e.trans e1e, e2f.trans e1f, e2g.trans e1g, e2h.trans e1h,
      sub2.trans sub1, ?_, ?_⟩
    · intro c hc
      rcases mid1 c hc with hc1 | hc1
      · rcases mid2 c hc1 with hc2 | hc2
        · exact Or.inl hc2
        · exact Or.inr (List.mem_append.mpr (Or.inr hc2))
      · exact Or.inr (List.mem_append.mpr (Or.inl hc1))
    · rw [det2, det1]
      by_cases hg1 : g ∈ rem1 <;> by_cases hg2 : g ∈ rem2 <;>
        simp [hg1, hg2, List.mem_append]
  · intro x hx p hpar o2 ho2
    obtain ⟨op1, hop1⟩ := removalSpec_heapExFrom h2 p o2 ho2
    obtain ⟨op2, hop2, -, -, -, -, -, -, -, -, subp, -, -⟩ := h2.objSome p op1 hop1
    have ho2eq : o2 = op2 := by
      rw [ho2] at hop2
      exact (Option.some.injEq _ _).mp hop2
    subst ho2eq
    rcases List.mem_append.mp hx with hx | hx
    · intro hmem
      exact h1.absent x hx p hpar op1 hop1 (subp hmem)
    · obtain ⟨ox, hox⟩ := heapS x hx
      have hpar1 : frameParent s1 x = some p :=
        (removalSpec_parentEq h1 x ox hox).trans hpar
      exact h2.absent x hx p hpar1 o2 ho2
  · exact h2.sameMain.trans h1.sameMain
  · exact h2.sameCtxs.trans h1.sameCtxs
  · exact h2.sameNext.trans h1.sameNext
  · exact h2.sameDoc.trans h1.sameDoc
  · obtain ⟨t1, e1⟩ := h1.evAppend
    obtain ⟨t2, e2⟩ := h2.evAppend
    exact ⟨t1 ++ t2, by rw [e2, e1, List.append_assoc]⟩

theorem mfind_mupd_none {α β : Type} [DecidableEq α] (m : List (α × β)) (k g : α)
    (fn : β → β) (h : mfind m g = none) : mfind (mupd m k fn) g = none := by
  by_cases hk : k = g
  · subst hk; rw [mfind_mupd_self, h]; rfl
  · rw [mfind_mupd_ne m k g fn hk, h]

theorem detachOne_mfind_objs (s : FrameManager) (f : Nat) (o : FrameObj)
    (ho : mfind s.objs f = some o) (g : Nat) :
    mfind (detachOne s f).objs g =
      (mfind s.objs g).map (fun og =>
        let og1 := if g = f then { og with detached := true } else og
        if o.parent = some g then
          { og1 with childList := og1.childList.filter (fun c => c ≠ f) }
        else og1) := by
  rcases hp : o.parent with _ | p
  · have hobjs : (detachOne s f).objs =
        mupd s.objs f (fun oo => { oo with detached := true }) := by
      simp only [detachOne, ho, hp]
    rw [hobjs]
    by_cases hg : g = f
    · rw [hg, mfind_mupd_self]
      cases mfind s.objs f <;> simp [hg]
    · rw [mfind_mupd_ne _ _ _ _ (fun h2 => hg h2.symm)]
      cases mfind s.objs g <;> simp [hg]
  · have hobjs : (detachOne s f).objs =
        mupd (mupd s.objs f (fun oo => { oo with detached := true })) p
          (fun po => { po with childList := po.childList.filter (fun c => c ≠ f) }) := by
      simp only [detachOne, ho, hp]
    rw [hobjs]
    by_cases hgp : p = g
    · rw [hgp, mfind_mupd_self]
      by_cases hg : g = f
      · rw [hg, mfind_mupd_self]
        cases mfind s.objs f <;> simp [hg, hgp]
      · rw [mfind_mupd_ne _ _ _ _ (fun h2 => hg h2.symm)]
        cases mfind s.objs g <;> simp [hg, hgp]
    · rw [mfind_mupd_ne _ _ _ _ hgp]
      by_cases hg : g = f
      · have hpf : ¬ p = f := fun h2 => hgp (h2.trans hg.symm)
        rw [hg, mfind_mupd_self]
        cases mfind s.objs f <;> simp [hg, hgp, hpf]
      · rw [mfind_mupd_ne _ _ _ _ (fun h2 => hg h2.symm)]
        cases mfind s.objs g <;> simp [hg, hgp]

theorem detachOne_spec (s : FrameManager) (f : Nat) (o : FrameObj)
    (ho : mfind s.objs f = some o) : RemovalSpec s (detachOne s f) [f] := by
  have hdid : frameDataId s f = some o.dataId := by simp [frameDataId, ho]
  have hreg : (detachOne s f).registry = mdel s.registry o.dataId := by
    rcases hp : o.parent with _ | p <;> simp only [detachOne, ho, hp]
  have hev : (detachOne s f).events =
      s.events ++ [Evt.frameDetached f, Evt.pageFrameDetached f] := by
    rcases hp : o.parent with _ | p <;> simp only [detachOne, ho, hp]
  have hrest : (detachOne s f).mainFrame = s.mainFrame
      ∧ (detachOne s f).contexts = s.contexts
      ∧ (detachOne s f).nextFrame = s.nextFrame
      ∧ (detachOne s f).lastDocumentId = s.lastDocumentId := by
    rcases hp : o.parent with _ | p <;> simp [detachOne, ho, hp]
  refine ⟨?_, ?_, ?_, ?_, ?_, ?_, hrest.1, hrest.2.1, hrest.2.2.1, hrest.2.2.2,
    ⟨[Evt.frameDetached f, Evt.pageFrameDetached f], hev⟩⟩
  · intro x hx
    simp only [List.mem_singleton] at hx
    subst hx; exact ⟨o, ho⟩
  · exact ⟨fun k2 => decide (k2 ≠ o.dataId), by rw [hreg]; rfl⟩
  · intro k
    rw [hreg]
    simp only [List.filterMap_cons, List.filterMap_nil, hdid]
    by_cases hk : k = o.dataId
    · subst hk; simp [mfind_mdel_self]
    · rw [mfind_mdel_ne _ _ _ (fun h2 => hk h2.symm)]
      simp [hk]
  · intro g h
    rw [detachOne_mfind_objs s f o ho g, h]; rfl
  · intro g o' ho'
    have hm := detachOne_mfind_objs s f o ho g
    rw [ho'] at hm
    simp only [Option.map_some'] at hm
    by_cases h1 : g = f
    · by_cases h2 : o.parent = some g
      · rw [if_pos h1, if_pos h2] at hm
        refine ⟨_, hm, rfl, rfl, rfl, rfl, rfl, rfl, rfl, rfl,
          (List.filter_sublist _).subset, ?_, by simp [h1]⟩
        intro c hc
        by_cases hcf : c = f
        · exact Or.inr (by simp [hcf])
        · exact Or.inl (by simp [List.mem_filter, hc, hcf])
      · rw [if_pos h1, if_neg h2] at hm
        exact ⟨_, hm, rfl, rfl, rfl, rfl, rfl, rfl, rfl, rfl,
          fun _ h => h, fun c hc => Or.inl hc, by simp [h1]⟩
    · by_cases h2 : o.parent = some g
      · rw [if_neg h1, if_pos h2] at hm
        refine ⟨_, hm, rfl, rfl, rfl, rfl, rfl, rfl, rfl, rfl,
          (List.filter_sublist _).subset, ?_, by simp [h1]⟩
        intro c hc
        by_cases hcf : c = f
        · exact Or.inr (by simp [hcf])
        · exact Or.inl (by simp [List.mem_filter, hc, hcf])
      · rw [if_neg h1, if_neg h2] at hm
        exact ⟨_, hm, rfl, rfl, rfl, rfl, rfl, rfl, rfl, rfl,
          fun _ h => h, fun c hc => Or.inl hc, by simp [h1]⟩
  · intro x hx pp hpar o2 ho2
    simp only [List.mem_singleton] at hx
    subst hx
    simp only [frameParent, ho] at hpar
    have hm := detachOne_mfind_objs s x o ho pp
    rw [ho2, hpar] at hm
    rcases hq : mfind s.objs pp with _ | oq
    · rw [hq] at hm; exact absurd hm (by simp)
    · rw [hq] at hm
      simp only [Option.map_some', Option.some.injEq, if_pos rfl] at hm
      rw [hm]
      simp [List.mem_filter]

theorem removal_spec_master : ∀ fuel : Nat,
    (∀ f s s2, removeFramesRecursively fuel f s = some s2 →
      ∃ rem, RemovalSpec s s2 rem ∧ f ∈ rem ∧
        (∀ x ∈ rem, x = f ∨ ∃ y ∈ rem, ∃ o, mfind s.objs y = some o ∧ x ∈ o.childList) ∧
        (∀ y ∈ rem, ∀ o, mfind s.objs y = some o → ∀ c ∈ o.childList, c ∈ rem))
    ∧ (∀ l s s2, removeList fuel l s = some s2 →
      ∃ rem, RemovalSpec s s2 rem ∧ (∀ x ∈ l, x ∈ rem) ∧
        (∀ x ∈ rem, x ∈ l ∨ ∃ y ∈ rem, ∃ o, mfind s.objs y = some o ∧ x ∈ o.childList) ∧
        (∀ y ∈ rem, ∀ o, mfind s.objs y = some o → ∀ c ∈ o.childList, c ∈ rem)) := by
  intro fuel
  induction fuel with
  | zero =>
    constructor
    · intro f s s2 h
      simp [removeFramesRecursively] at h
    · intro l s s2 h
      match l with
      | [] =>
        simp only [removeList, removeListAux, Option.some.injEq] at h
        subst h
        exact ⟨[], removalSpec_refl s, by intro x hx; simp at hx,
          by intro x hx; simp at hx, by intro y hy; simp at hy⟩
      | c :: rest =>
        simp [removeList, removeListAux, removeFramesRecursively] at h
  | succ fu ih =>
    have single : ∀ f s s2, removeFramesRecursively (fu + 1) f s = some s2 →
        ∃ rem, RemovalSpec s s2 rem ∧ f ∈ rem ∧
          (∀ x ∈ rem, x = f ∨ ∃ y ∈ rem, ∃ o, mfind s.objs y = some o ∧ x ∈ o.childList) ∧
          (∀ y ∈ rem, ∀ o, mfind s.objs y = some o → ∀ c ∈ o.childList, c ∈ rem) := by
      intro f s s2 h
      rw [removeFramesRecursively] at h
      split at h
      · exact absurd h (by simp)
      · rename_i o ho
        split at h
        · exact absurd h (by simp)
        rename_i s1 hl
        simp only [Option.some.injEq] at h
        subst h
        obtain ⟨remL, specL, rootsL, originL, r5L⟩ := ih.2 o.childList s s1 hl
        obtain ⟨o1, ho1, -⟩ := specL.objSome f o ho
        have spec2 := detachOne_spec s1 f o1 ho1
        have spec := removalSpec_trans specL spec2
        refine ⟨remL ++ [f], spec, List.mem_append.mpr (Or.inr (by simp)), ?_, ?_⟩
        · intro x hx
          rcases List.mem_append.mp hx with hx | hx
          · rcases originL x hx with hx2 | ⟨y, hy, o0, ho0, hxc⟩
            · exact Or.inr ⟨f, List.mem_append.mpr (Or.inr (by simp)), o, ho, hx2⟩
            · exact Or.inr ⟨y, List.mem_append.mpr (Or.inl hy), o0, ho0, hxc⟩
          · simp only [List.mem_singleton] at hx
            exact Or.inl hx
        · intro y hy o0 ho0 c hc
          rcases List.mem_append.mp hy with hy | hy
          · exact List.mem_append.mpr (Or.inl (r5L y hy o0 ho0 c hc))
          · simp only [List.mem_singleton] at hy
            subst hy
            have : o0 = o := by rw [ho] at ho0; exact ((Option.some.injEq _ _).mp ho0).symm
            subst this
            exact List.mem_append.mpr (Or.inl (rootsL c hc))
    refine ⟨single, ?_⟩
    intro l
    induction l with
    | nil =>
      intro s s2 h
      simp only [removeList, removeListAux, Option.some.injEq] at h
      subst h
      exact ⟨[], removalSpec_refl s, by intro x hx; simp at hx,
        by intro x hx; simp at hx, by intro y hy; simp at hy⟩
    | cons c rest ihl =>
      intro s s2 h
      rw [removeList, removeListAux] at h
      split at h
      · exact absurd h (by simp)
      · rename_i s1 hc
        obtain ⟨rem1, spec1, hcmem, origin1, r51⟩ := single c s s1 hc
        obtain ⟨rem2, spec2, roots2, origin2, r52⟩ := ihl s1 s2 h
        have spec := removalSpec_trans spec1 spec2
        refine ⟨rem1 ++ rem2, spec, ?_, ?_, ?_⟩
        · intro x hx
          rcases List.mem_cons.mp hx with hx | hx
          · subst hx; exact List.mem_append.mpr (Or.inl hcmem)
          · exact List.mem_append.mpr (Or.inr (roots2 x hx))
        · intro x hx
          rcases List.mem_append.mp hx with hx | hx
          · rcases origin1 x hx with hx2 | ⟨y, hy, o0, ho0, hxc⟩
            · exact Or.inl (by simp [hx2])
            · exact Or.inr ⟨y, List.mem_append.mpr (Or.inl hy), o0, ho0, hxc⟩
          · rcases origin2 x hx with hx2 | ⟨y, hy, o1, ho1, hxc⟩
            · exact Or.inl (by simp [hx2])
            · obtain ⟨o0, ho0⟩ := removalSpec_heapExFrom spec1 y o1 ho1
              obtain ⟨o1b, ho1b, -, -, -, -, -, -, -, -, sub1, -, -⟩ := spec1.objSome y o0 ho0
              have : o1b = o1 := by
                rw [ho1] at ho1b; exact ((Option.some.injEq _ _).mp ho1b).symm
              subst this
              exact Or.inr ⟨y, List.mem_append.mpr (Or.inr hy), o0, ho0, sub1 hxc⟩
        · intro y hy o0 ho0 c2 hc2
          rcases List.mem_append.mp hy with hy | hy
          · exact List.mem_append.mpr (Or.inl (r51 y hy o0 ho0 c2 hc2))
          · obtain ⟨o1b, ho1b, -, -, -, -, -, -, -, -, -, mid1, -⟩ := spec1.objSome y o0 ho0
            rcases mid1 c2 hc2 with hc3 | hc3
            · exact List.mem_append.mpr (Or.inr (r52 y hy o1b ho1b c2 hc3))
            · exact List.mem_append.mpr (Or.inl hc3)

/-! ### Claim C1: main-frame identity across cross-process navigation -/

/-- C1: a `_onFrameNavigated` call whose payload has no `parentId` keeps
`mainFrame()` pointing at the very same frame object, re-registers that
object under the payload id, and unregisters the old id (when the two
differ), so holders of the main-frame handle keep working across the
navigation. -/
theorem c1_main_frame_identity (s s2 : FrameManager) (f : Nat) (oldId : String)
    (payload : FramePayload) (b : Bool)
    (hm : s.mainFrame = some f)
    (hid : frameDataId s f = some oldId)
    (hpar : payload.parentId = none)
    (hs : FrameManager.onFrameNavigated s payload b = some s2) :
    s2.mainFrame = s.mainFrame ∧ s2.mainFrame = some f
      ∧ FrameManager.frame s2 payload.id = some f
      ∧ (oldId ≠ payload.id → FrameManager.frame s2 oldId = none) := by
  rw [FrameManager.onFrameNavigated] at hs
  simp only [hpar, Option.isNone_none, if_true, hm] at hs
  rcases ho : mfind s.objs f with _ | o
  · rw [ho] at hs; exact absurd hs (by simp)
  · rw [ho] at hs
    simp only at hs
    rcases hrl : removeList s.nextFrame o.childList s with _ | s1
    · rw [hrl] at hs; exact absurd hs (by simp)
    · rw [hrl] at hs
      simp only at hs
      obtain ⟨remL, specL, -, -, -⟩ := (removal_spec_master s.nextFrame).2
        o.childList s s1 hrl
      obtain ⟨o1, ho1, hdid1, -⟩ := specL.objSome f o ho
      rw [ho1] at hs
      simp only [Option.some.injEq] at hs
      subst hs
      have hod : o.dataId = oldId := by
        rw [frameDataId, ho] at hid
        exact (Option.some.injEq _ _).mp hid
      have hmain1 : s1.mainFrame = some f := specL.sameMain.trans hm
      refine ⟨?_, ?_, ?_, ?_⟩
      · cases b <;> simp [hm, hmain1, specL.sameMain]
      · cases b <;> simp [hm, hmain1, specL.sameMain]
      · cases b <;> simp [FrameManager.frame, mfind_mput_self]
      · intro hne
        have hne2 : payload.id ≠ oldId := fun h2 => hne h2.symm
        cases b <;>
          simp [FrameManager.frame, mfind_mput_ne _ _ _ _ hne2, hdid1, hod,
            mfind_mdel_self]

/-- Witness for C1 at a concrete input: main frame `"a"` navigated
cross-process to id `"b"`. -/
theorem c1_witness :
    ∃ s2, FrameManager.onFrameNavigated attachedA
        { id := ("b"), parentId := none, loaderId := ("L"), url := ("u"), name := ("") }
        false = some s2
      ∧ s2.mainFrame = attachedA.mainFrame ∧ s2.mainFrame = some 0
      ∧ FrameManager.frame s2 ("b") = some 0
      ∧ FrameManager.frame s2 ("a") = none := by
  rcases hnav : FrameManager.onFrameNavigated attachedA
      { id := ("b"), parentId := none, loaderId := ("L"), url := ("u"), name := ("") }
      false with _ | s2
  · exact absurd hnav (by decide)
  · obtain ⟨h1, h2, h3, h4⟩ := c1_main_frame_identity attachedA s2 0 ("a")
      { id := ("b"), parentId := none, loaderId := ("L"), url := ("u"), name := ("") }
      false (by decide) (by decide) rfl hnav
    exact ⟨s2, rfl, h1, h2, h3, h4 (by decide)⟩

/-! ### Exact characterization of recursive detach (claim C2) -/

theorem FTree.myInd {P : FTree → Prop}
    (h : ∀ f cs, (∀ c ∈ cs, P c) → P (FTree.node f cs)) : ∀ t, P t
  | .node f cs => h f cs (fun c hc => FTree.myInd h c)
termination_by t => sizeOf t
decreasing_by
  simp only [FTree.node.sizeOf_spec]
  have := List.sizeOf_lt_of_mem hc
  omega

theorem postorder_node (f : Nat) (cs : List FTree) :
    (FTree.node f cs).postorder = FTree.postorderL cs ++ [f] := by
  rw [FTree.postorder]

theorem postorderL_cons (c : FTree) (rest : List FTree) :
    FTree.postorderL (c :: rest) = c.postorder ++ FTree.postorderL rest := by
  rw [FTree.postorderL]

theorem root_mem_postorder (t : FTree) : t.root ∈ t.postorder := by
  rcases t with ⟨f, cs⟩
  rw [FTree.root, postorder_node]
  simp

theorem detachEvents_append (a b : List Nat) :
    detachEvents (a ++ b) = detachEvents a ++ detachEvents b := by
  simp [detachEvents]

theorem detachEvents_filterMap_mgr (l : List Nat) :
    (detachEvents l).filterMap mgrDetachedOf = l := by
  induction l with
  | nil => rfl
  | cons x r ih => simp [detachEvents, mgrDetachedOf, List.filterMap_cons] at ih ⊢; exact ih

theorem detachEvents_filterMap_page (l : List Nat) :
    (detachEvents l).filterMap pageDetachedOf = l := by
  induction l with
  | nil => rfl
  | cons x r ih =>
    simp [detachEvents, mgrDetachedOf, pageDetachedOf, List.filterMap_cons] at ih ⊢
    exact ih

theorem filter_keys_comp (l : List (String × Nat)) (K1 K2 : List String) :
    (l.filter (fun kv => decide (¬ kv.1 ∈ K1))).filter (fun kv => decide (¬ kv.1 ∈ K2))
      = l.filter (fun kv => decide (¬ kv.1 ∈ K1 ++ K2)) := by
  rw [List.filter_filter]
  apply List.filter_congr
  intro a _
  by_cases h1 : a.1 ∈ K1 <;> by_cases h2 : a.1 ∈ K2 <;> simp [h1, h2]

theorem filter_nat_comp (l : List Nat) (r : Nat) (R : List Nat) :
    (l.filter (fun c => decide (c ≠ r))).filter (fun c => decide (¬ c ∈ R))
      = l.filter (fun c => decide (¬ c ∈ r :: R)) := by
  rw [List.filter_filter]
  apply List.filter_congr
  intro a _
  by_cases h1 : a = r <;> by_cases h2 : a ∈ R <;> simp [h1, h2]

theorem filter_not_mem_self (l : List Nat) :
    l.filter (fun c => decide (¬ c ∈ l)) = [] := by
  rw [List.filter_eq_nil_iff]
  intro a ha
  simp [ha]

theorem dataIdsOf_congr (s s1 : FrameManager) (l : List Nat)
    (h : ∀ g ∈ l, frameDataId s1 g = frameDataId s g) :
    dataIdsOf s1 l = dataIdsOf s l :=
  List.filterMap_congr h

theorem subtreeOk_congr : ∀ (t : FTree) (s s1 : FrameManager),
    (∀ g ∈ t.postorder, mfind s1.objs g = mfind s.objs g) →
    subtreeOk s1 t = subtreeOk s t := by
  apply FTree.myInd
  intro f cs ih s s1 hg
  have hmemf : f ∈ (FTree.node f cs).postorder := by rw [postorder_node]; simp
  have hmemL : ∀ g ∈ FTree.postorderL cs, g ∈ (FTree.node f cs).postorder := by
    intro g hgp; rw [postorder_node]; exact List.mem_append.mpr (Or.inl hgp)
  have hch : ∀ cs2 : List FTree, (∀ c ∈ cs2, c ∈ cs) →
      (∀ g ∈ FTree.postorderL cs2, mfind s1.objs g = mfind s.objs g) →
      childrenOk s1 f cs2 = childrenOk s f cs2 := by
    intro cs2
    induction cs2 with
    | nil => intro _ _; rfl
    | cons c rest ihc =>
      intro hsub hg2
      have hroot : c.root ∈ FTree.postorderL (c :: rest) := by
        rw [postorderL_cons]
        exact List.mem_append.mpr (Or.inl (root_mem_postorder c))
      have hgc : ∀ g ∈ c.postorder, mfind s1.objs g = mfind s.objs g := by
        intro g hgp
        apply hg2
        rw [postorderL_cons]
        exact List.mem_append.mpr (Or.inl hgp)
      have hgr : ∀ g ∈ FTree.postorderL rest, mfind s1.objs g = mfind s.objs g := by
        intro g hgp
        apply hg2
        rw [postorderL_cons]
        exact List.mem_append.mpr (Or.inr hgp)
      have h1 : frameParent s1 c.root = frameParent s c.root := by
        rw [frameParent, frameParent, hg2 c.root hroot]
      have h2 : subtreeOk s1 c = subtreeOk s c := ih c (hsub c (by simp)) s s1 hgc
      have h3 : childrenOk s1 f rest = childrenOk s f rest :=
        ihc (fun c2 hc2 => hsub c2 (by simp [hc2])) hgr
      rw [childrenOk, childrenOk, h1, h2, h3]
  have hch2 : childrenOk s1 f cs = childrenOk s f cs :=
    hch cs (fun _ h => h) (fun g hgp => hg g (hmemL g hgp))
  rw [subtreeOk, subtreeOk, hg f hmemf]
  cases mfind s.objs f with
  | none => rfl
  | some o => rw [hch2]

theorem childrenOk_congr : ∀ (cs : List FTree) (f : Nat) (s s1 : FrameManager),
    (∀ g ∈ FTree.postorderL cs, mfind s1.objs g = mfind s.objs g) →
    childrenOk s1 f cs = childrenOk s f cs := by
  intro cs
  induction cs with
  | nil => intro f s s1 _; rfl
  | cons c rest ihc =>
    intro f s s1 hg
    have hroot : c.root ∈ FTree.postorderL (c :: rest) := by
      rw [postorderL_cons]
      exact List.mem_append.mpr (Or.inl (root_mem_postorder c))
    have h1 : frameParent s1 c.root = frameParent s c.root := by
      rw [frameParent, frameParent, hg c.root hroot]
    have h2 : subtreeOk s1 c = subtreeOk s c := by
      apply subtreeOk_congr
      intro g hgp
      apply hg
      rw [postorderL_cons]
      exact List.mem_append.mpr (Or.inl hgp)
    have h3 : childrenOk s1 f rest = childrenOk s f rest := by
      apply ihc
      intro g hgp
      apply hg
      rw [postorderL_cons]
      exact List.mem_append.mpr (Or.inr hgp)
    rw [childrenOk, childrenOk, h1, h2, h3]

theorem detachOne_registry (s : FrameManager) (f : Nat) (o : FrameObj)
    (ho : mfind s.objs f = some o) :
    (detachOne s f).registry = mdel s.registry o.dataId := by
  rcases hp : o.parent with _ | p <;> simp only [detachOne, ho, hp]

theorem detachOne_events (s : FrameManager) (f : Nat) (o : FrameObj)
    (ho : mfind s.objs f = some o) :
    (detachOne s f).events = s.events ++ [Evt.frameDetached f, Evt.pageFrameDetached f] := by
  rcases hp : o.parent with _ | p <;> simp only [detachOne, ho, hp]

theorem detachOne_misc (s : FrameManager) (f : Nat) (o : FrameObj)
    (ho : mfind s.objs f = some o) :
    (detachOne s f).mainFrame = s.mainFrame ∧ (detachOne s f).contexts = s.contexts
      ∧ (detachOne s f).nextFrame = s.nextFrame
      ∧ (detachOne s f).lastDocumentId = s.lastDocumentId := by
  rcases hp : o.parent with _ | p <;> simp [detachOne, ho, hp]

theorem mdel_as_filter {β : Type} (m : List (String × β)) (d : String) :
    mdel m d = m.filter (fun kv => decide (¬ kv.1 ∈ [d])) := by
  apply List.filter_congr
  intro a _
  by_cases h : a.1 = d <;> simp [h]

theorem removeTree_exact : ∀ (t : FTree), ∀ (fuel : Nat) (s : FrameManager),
    subtreeOk s t = true → t.postorder.Nodup → t.height ≤ fuel →
    ∃ s2, removeFramesRecursively fuel t.root s = some s2
      ∧ s2.events = s.events ++ detachEvents t.postorder
      ∧ s2.registry = s.registry.filter
          (fun kv => decide (¬ kv.1 ∈ dataIdsOf s t.postorder))
      ∧ (∀ g, mfind s2.objs g = (mfind s.objs g).map (fun og =>
          if g ∈ t.postorder then { og with detached := true, childList := [] }
          else if frameParent s t.root = some g then
            { og with childList := og.childList.filter (fun c => decide (c ≠ t.root)) }
          else og))
      ∧ s2.mainFrame = s.mainFrame ∧ s2.contexts = s.contexts
      ∧ s2.nextFrame = s.nextFrame ∧ s2.lastDocumentId = s.lastDocumentId := by
  apply FTree.myInd
  intro f cs ih fuel s hok hnd hht
  have hforest : ∀ (cs2 : List FTree), (∀ c ∈ cs2, c ∈ cs) → ∀ (fl : Nat) (s0 : FrameManager),
      childrenOk s0 f cs2 = true → (FTree.postorderL cs2).Nodup →
      ¬ f ∈ FTree.postorderL cs2 → FTree.heightL cs2 ≤ fl →
      ∃ s2, removeListAux (removeFramesRecursively fl) (cs2.map FTree.root) s0 = some s2
        ∧ s2.events = s0.events ++ detachEvents (FTree.postorderL cs2)
        ∧ s2.registry = s0.registry.filter
            (fun kv => decide (¬ kv.1 ∈ dataIdsOf s0 (FTree.postorderL cs2)))
        ∧ (∀ g, mfind s2.objs g = (mfind s0.objs g).map (fun og =>
            if g ∈ FTree.postorderL cs2 then { og with detached := true, childList := [] }
            else if g = f then
              { og with childList := (og.childList.filter (fun c2 => decide (¬ c2 ∈ cs2.map FTree.root))) }
            else og))
        ∧ s2.mainFrame = s0.mainFrame ∧ s2.contexts = s0.contexts
        ∧ s2.nextFrame = s0.nextFrame ∧ s2.lastDocumentId = s0.lastDocumentId := by
    intro cs2
    induction cs2 with
    | nil =>
      intro _ fl s0 _ _ _ _
      refine ⟨s0, rfl, ?_, ?_, ?_, rfl, rfl, rfl, rfl⟩
      · simp [detachEvents, FTree.postorderL]
      · simp [dataIdsOf, FTree.postorderL]
      · intro g
        cases mfind s0.objs g <;> simp [FTree.postorderL]
    | cons c rest ihc =>
      intro hsub fl s0 hco hnd0 hf0 hht0
      rw [childrenOk] at hco
      simp only [Bool.and_eq_true, decide_eq_true_eq] at hco
      obtain ⟨⟨hpar, hsubc⟩, hcorest⟩ := hco
      rw [postorderL_cons] at hnd0 hf0
      obtain ⟨nd1, nd2, disj⟩ := List.nodup_append.mp hnd0
      have hfc : ¬ f ∈ c.postorder := fun h => hf0 (List.mem_append.mpr (Or.inl h))
      have hfr : ¬ f ∈ FTree.postorderL rest := fun h =>
        hf0 (List.mem_append.mpr (Or.inr h))
      rw [FTree.heightL] at hht0
      have hle1 : c.height ≤ fl := le_trans (Nat.le_max_left _ _) hht0
      have hle2 : FTree.heightL rest ≤ fl := le_trans (Nat.le_max_right _ _) hht0
      obtain ⟨s1, hrun1, hev1, hreg1, hobj1, hm1, hc1, hn1, hd1⟩ :=
        ih c (hsub c (by simp)) fl s0 hsubc nd1 hle1
      have huntouched : ∀ g, ¬ g ∈ c.postorder → g ≠ f →
          mfind s1.objs g = mfind s0.objs g := by
        intro g hg1 hg2
        rw [hobj1 g, hpar]
        have h3 : ¬ (some f = some g) := by
          simp only [Option.some.injEq]
          exact fun h => hg2 h.symm
        cases mfind s0.objs g <;> simp [hg1, h3]
      have hrestuntouch : ∀ g ∈ FTree.postorderL rest,
          mfind s1.objs g = mfind s0.objs g := by
        intro g hg
        exact huntouched g (fun h2 => disj h2 hg) (fun h2 => hfr (h2 ▸ hg))
      have hdid1 : ∀ g, frameDataId s1 g = frameDataId s0 g := by
        intro g
        rw [frameDataId, frameDataId, hobj1 g]
        cases mfind s0.objs g with
        | none => rfl
        | some og =>
          simp only [Option.map_some']
          split
          · rfl
          · split <;> rfl
      obtain ⟨s2, hrun2, hev2, hreg2, hobj2, hm2, hc2, hn2, hd2⟩ :=
        ihc (fun c2 h2 => hsub c2 (by simp [h2])) fl s1
          (by rw [childrenOk_congr rest f s0 s1 hrestuntouch]; exact hcorest)
          nd2 hfr hle2
      refine ⟨s2, ?_, ?_, ?_, ?_, hm2.trans hm1, hc2.trans hc1, hn2.trans hn1,
        hd2.trans hd1⟩
      · rw [List.map_cons, removeListAux, hrun1]
        exact hrun2
      · rw [hev2, hev1, postorderL_cons, detachEvents_append, List.append_assoc]
      · rw [hreg2, hreg1, dataIdsOf_congr s0 s1 (FTree.postorderL rest)
          (fun g _ => hdid1 g), filter_keys_comp, postorderL_cons]
        simp only [dataIdsOf, List.filterMap_append]
      · intro g
        rw [hobj2 g, hobj1 g, hpar, Option.map_map]
        cases hog : mfind s0.objs g with
        | none => rfl
        | some og =>
          simp only [Option.map_some', Function.comp_apply, Option.some.injEq,
            postorderL_cons, List.mem_append, List.map_cons]
          by_cases m1 : g ∈ c.postorder <;> by_cases m2 : g ∈ FTree.postorderL rest <;>
            by_cases m3 : g = f
          · exact absurd (m3 ▸ m1) hfc
          · simp [m1, m2, m3]
          · exact absurd (m3 ▸ m1) hfc
          · simp [m1, m2, m3]
          · exact absurd (m3 ▸ m2) hfr
          · have h5 : ¬ f = g := fun h => m3 h.symm
            simp [m1, m2, m3, h5]
          · simp [m3, hfc, hfr, filter_nat_comp]
            exact List.filter_congr (fun a _ => Bool.and_comm _ _)
          · have h5 : ¬ f = g := fun h => m3 h.symm
            simp [m1, m2, m3, h5]
  rw [subtreeOk] at hok
  rcases ho : mfind s.objs f with _ | o
  · rw [ho] at hok; exact absurd hok (by simp)
  · rw [ho] at hok
    simp only [Bool.and_eq_true, decide_eq_true_eq] at hok
    obtain ⟨hcl, hco⟩ := hok
    rw [postorder_node] at hnd
    obtain ⟨nd1, -, disj⟩ := List.nodup_append.mp hnd
    have hfp : ¬ f ∈ FTree.postorderL cs := fun h => disj h (by simp)
    rcases fuel with _ | fu
    · rw [FTree.height] at hht
      omega
    · rw [FTree.height] at hht
      have hhtl : FTree.heightL cs ≤ fu := by omega
      obtain ⟨s1, hrun1, hev1, hreg1, hobj1, hm1, hc1, hn1, hd1⟩ :=
        hforest cs (fun _ h => h) fu s hco nd1 hfp hhtl
      have ho1 : mfind s1.objs f = some { o with childList := [] } := by
        rw [hobj1 f, ho]
        simp only [Option.map_some', hfp, if_false, if_pos rfl]
        simp [hcl, filter_not_mem_self, hfp]
      have hrun : removeFramesRecursively (fu + 1) (FTree.node f cs).root s
          = some (detachOne s1 f) := by
        rw [FTree.root, removeFramesRecursively, ho]
        show (match removeListAux (removeFramesRecursively fu) o.childList s with
          | none => none
          | some s1 => some (detachOne s1 f)) = some (detachOne s1 f)
        rw [← hcl] at hrun1
        rw [hrun1]
      refine ⟨detachOne s1 f, hrun, ?_, ?_, ?_, ?_⟩
      · rw [detachOne_events s1 f _ ho1, hev1, postorder_node, detachEvents_append,
          List.append_assoc]
        rfl
      · rw [detachOne_registry s1 f _ ho1]
        simp only
        rw [mdel_as_filter, hreg1, filter_keys_comp, postorder_node]
        have hfm : List.filterMap (frameDataId s) [f] = [o.dataId] := by
          simp [frameDataId, ho]
        simp only [dataIdsOf, List.filterMap_append, hfm]
      · intro g
        rw [detachOne_mfind_objs s1 f _ ho1 g, hobj1 g, Option.map_map]
        cases hog : mfind s.objs g with
        | none => rfl
        | some og =>
          simp only [Option.map_some', Function.comp_apply, Option.some.injEq,
            postorder_node, List.mem_append, List.mem_singleton, FTree.root,
            frameParent, ho]
          by_cases m1 : g ∈ FTree.postorderL cs <;> by_cases m3 : g = f
          · exact absurd (m3 ▸ m1) hfp
          · have h5 : ¬ f = g := fun h => m3 h.symm
            by_cases m4 : o.parent = some g <;> simp [m1, m3, m4, h5]
          · have hogo : og = o := by
              rw [m3, ho] at hog
              exact ((Option.some.injEq _ _).mp hog).symm
            have hfe : List.filter (fun c2 => decide (∀ x ∈ cs, ¬ FTree.root x = c2))
                (List.map FTree.root cs) = [] := by
              rw [List.filter_eq_nil_iff]
              intro a ha
              rcases List.mem_map.mp ha with ⟨x, hx, hxa⟩
              simp only [decide_eq_true_eq]
              exact fun hall => hall x hx hxa
            by_cases m4 : o.parent = some g <;>
              simp [m1, m3, m4, hogo, hcl, hfp, hfe]
          · have h5 : ¬ f = g := fun h => m3 h.symm
            by_cases m4 : o.parent = some g <;> simp [m1, m3, m4, h5]
      · obtain ⟨a2, b2, c2, d2⟩ := detachOne_misc s1 f _ ho1
        exact ⟨a2.trans hm1, b2.trans hc1, c2.trans hn1, d2.trans hd1⟩

/-! ### Claim C2: recursive detach -/

theorem postorder_sublist_postorderL (c : FTree) (cs : List FTree) (hc : c ∈ cs) :
    c.postorder.Sublist (FTree.postorderL cs) := by
  revert hc
  induction cs with
  | nil => intro hc; cases hc
  | cons d rest ihd =>
    intro hc
    rw [postorderL_cons]
    rcases List.mem_cons.mp hc with hc | hc
    · exact hc ▸ List.sublist_append_left _ _
    · exact (ihd hc).trans (List.sublist_append_right _ _)

theorem postorderL_mem_split (g : Nat) (cs : List FTree)
    (hg : g ∈ FTree.postorderL cs) : ∃ c ∈ cs, g ∈ c.postorder := by
  induction cs with
  | nil => cases hg
  | cons d rest ihd =>
    rw [postorderL_cons] at hg
    rcases List.mem_append.mp hg with hg | hg
    · exact ⟨d, by simp, hg⟩
    · obtain ⟨c, hc1, hc2⟩ := ihd hg
      exact ⟨c, by simp [hc1], hc2⟩

theorem childrenOk_mem (s : FrameManager) (f : Nat) (cs : List FTree) (c : FTree)
    (hok : childrenOk s f cs = true) (hc : c ∈ cs) :
    frameParent s c.root = some f ∧ subtreeOk s c = true := by
  revert hok hc
  induction cs with
  | nil => intro _ hc; cases hc
  | cons d rest ihd =>
    intro hok hc
    rw [childrenOk] at hok
    simp only [Bool.and_eq_true, decide_eq_true_eq] at hok
    obtain ⟨⟨h1, h2⟩, h3⟩ := hok
    rcases List.mem_cons.mp hc with hc | hc
    · exact hc ▸ ⟨h1, h2⟩
    · exact ihd h3 hc

theorem subtree_parent_before : ∀ (t : FTree) (s : FrameManager),
    subtreeOk s t = true → ∀ g ∈ t.postorder, g ≠ t.root →
    ∃ p, frameParent s g = some p ∧ List.Sublist [g, p] t.postorder := by
  apply FTree.myInd
  intro f cs ih s hok g hg hgne
  rw [FTree.root] at hgne
  rw [postorder_node] at hg ⊢
  rcases List.mem_append.mp hg with hg2 | hg2
  · obtain ⟨c, hc, hgc⟩ := postorderL_mem_split g cs hg2
    rw [subtreeOk] at hok
    rcases ho : mfind s.objs f with _ | o
    · rw [ho] at hok; exact absurd hok (by simp)
    · rw [ho] at hok
      simp only [Bool.and_eq_true, decide_eq_true_eq] at hok
      obtain ⟨hcl, hco⟩ := hok
      obtain ⟨hpar, hsubc⟩ := childrenOk_mem s f cs c hco hc
      by_cases hgr : g = c.root
      · refine ⟨f, hgr ▸ hpar, ?_⟩
        exact List.Sublist.append (List.singleton_sublist.mpr hg2)
          (List.Sublist.refl [f])
      · obtain ⟨p, hp, hsub⟩ := ih c hc s hsubc g hgc (fun h => hgr (h ▸ rfl))
        refine ⟨p, hp, ?_⟩
        exact (hsub.trans (postorder_sublist_postorderL c cs hc)).trans
          (List.sublist_append_left _ _)
  · rw [List.mem_singleton] at hg2
    exact absurd hg2 hgne

theorem mfind_filter_keys_none (l : List (String × Nat)) (D : List String)
    (d : String) (hd : d ∈ D) :
    mfind (l.filter (fun kv => decide (¬ kv.1 ∈ D))) d = none := by
  induction l with
  | nil => rfl
  | cons kv r ihr =>
    rcases kv with ⟨k, v⟩
    by_cases hk : k ∈ D
    · have hpk : (decide (¬ (k, v).1 ∈ D)) = false := by
        simp [hk]
      rw [List.filter_cons, hpk]
      simp only [Bool.false_eq_true, if_false]
      exact ihr
    · have hpk : (decide (¬ (k, v).1 ∈ D)) = true := by
        simp [hk]
      rw [List.filter_cons, hpk]
      simp only [if_true]
      have hne : ¬ k = d := fun h => hk (h ▸ hd)
      rw [mfind, if_neg hne]
      exact ihr

/-- C2: detaching a registered frame whose heap subtree is described by the
tree `t` (with `N = t.size - 1` descendants) succeeds and emits exactly
`t.size = N + 1` manager-level and page-level `FrameDetached` events, one
per node of the subtree in depth-first order with every child strictly
before its parent, and unregisters all `N + 1` protocol frame ids, so that
`frame(id)` afterwards returns null for each of them; a detach event whose
frame id is not registered is a no-op. -/
theorem c2_recursive_detach (s : FrameManager) (fid : String) (f : Nat)
    (t : FTree)
    (hreg : mfind s.registry fid = some f)
    (hroot : t.root = f)
    (hok : subtreeOk s t = true)
    (hnd : t.postorder.Nodup)
    (hht : t.height ≤ s.nextFrame) :
    (∃ s2, s.onFrameDetached fid = some s2
      ∧ s2.events = s.events ++ detachEvents t.postorder
      ∧ (s2.events.drop s.events.length).filterMap mgrDetachedOf = t.postorder
      ∧ (s2.events.drop s.events.length).filterMap pageDetachedOf = t.postorder
      ∧ ((s2.events.drop s.events.length).filterMap mgrDetachedOf).length
          = t.size
      ∧ (∀ g ∈ t.postorder, ∀ d, frameDataId s g = some d →
          s2.frame d = none)
      ∧ (∀ g ∈ t.postorder, g ≠ t.root →
          ∃ p, frameParent s g = some p ∧ List.Sublist [g, p] t.postorder))
    ∧ (∀ (s3 : FrameManager) (fid2 : String), mfind s3.registry fid2 = none →
        s3.onFrameDetached fid2 = some s3) := by
  constructor
  · obtain ⟨s2, hrun, hev, hregF, hobj, -, -, -, -⟩ :=
      removeTree_exact t s.nextFrame s hok hnd hht
    refine ⟨s2, ?_, hev, ?_, ?_, ?_, ?_, ?_⟩
    · rw [FrameManager.onFrameDetached, hreg]
      rw [hroot] at hrun
      exact hrun
    · rw [hev, List.drop_left, detachEvents_filterMap_mgr]
    · rw [hev, List.drop_left, detachEvents_filterMap_page]
    · rw [hev, List.drop_left, detachEvents_filterMap_mgr, FTree.size]
    · intro g hg d hd
      rw [FrameManager.frame, hregF]
      apply mfind_filter_keys_none
      rw [dataIdsOf, List.mem_filterMap]
      exact ⟨g, hg, hd⟩
    · exact subtree_parent_before t s hok
  · intro s3 fid2 h
    rw [FrameManager.onFrameDetached, h]

/-- Witness for C2: in the concrete state with frames `"a"` (main, heap id
0), `"b"` (child, heap id 1) and `"c"` (grandchild, heap id 2), detaching
`"b"` removes the subtree `{1, 2}` exactly as characterized. -/
theorem c2_witness :
    mfind attachedABC.registry ("b") = some 1
    ∧ (FTree.node 1 [FTree.node 2 []]).root = 1
    ∧ subtreeOk attachedABC (FTree.node 1 [FTree.node 2 []]) = true
    ∧ (FTree.node 1 [FTree.node 2 []]).postorder.Nodup
    ∧ (FTree.node 1 [FTree.node 2 []]).height ≤ attachedABC.nextFrame
    ∧ ((∃ s2, attachedABC.onFrameDetached ("b") = some s2
        ∧ s2.events = attachedABC.events
            ++ detachEvents (FTree.node 1 [FTree.node 2 []]).postorder
        ∧ (s2.events.drop attachedABC.events.length).filterMap mgrDetachedOf
            = (FTree.node 1 [FTree.node 2 []]).postorder
        ∧ (s2.events.drop attachedABC.events.length).filterMap pageDetachedOf
            = (FTree.node 1 [FTree.node 2 []]).postorder
        ∧ ((s2.events.drop attachedABC.events.length).filterMap
            mgrDetachedOf).length = (FTree.node 1 [FTree.node 2 []]).size
        ∧ (∀ g ∈ (FTree.node 1 [FTree.node 2 []]).postorder, ∀ d,
            frameDataId attachedABC g = some d → s2.frame d = none)
        ∧ (∀ g ∈ (FTree.node 1 [FTree.node 2 []]).postorder,
            g ≠ (FTree.node 1 [FTree.node 2 []]).root →
            ∃ p, frameParent attachedABC g = some p
              ∧ List.Sublist [g, p] (FTree.node 1 [FTree.node 2 []]).postorder))
      ∧ (∀ (s3 : FrameManager) (fid2 : String), mfind s3.registry fid2 = none →
          s3.onFrameDetached fid2 = some s3)) :=
  ⟨by decide, rfl, by decide, by decide, by decide,
    c2_recursive_detach attachedABC ("b") 1 (FTree.node 1 [FTree.node 2 []])
      (by decide) rfl (by decide) (by decide) (by decide)⟩

/-! ### Claim C4: document id uniqueness -/

theorem toDigitsCore_fuel : ∀ n f1 f2 (ds : List Char), n < f1 → n < f2 →
    Nat.toDigitsCore 10 f1 n ds = Nat.toDigitsCore 10 f2 n ds := by
  intro n
  induction n using Nat.strong_induction_on with
  | _ n ih =>
    intro f1 f2 ds h1 h2
    match f1, f2 with
    | a + 1, b + 1 =>
      rw [Nat.toDigitsCore, Nat.toDigitsCore]
      by_cases hz : n / 10 = 0
      · simp only [hz, if_true]
      · simp only [hz, if_false]
        have hn0 : 0 < n := Nat.pos_of_ne_zero (fun h => hz (by simp [h]))
        have hlt : n / 10 < n := Nat.div_lt_self hn0 (by omega)
        exact ih (n / 10) hlt a b _ (by omega) (by omega)

theorem toDigitsCore_acc : ∀ f n (ds : List Char),
    Nat.toDigitsCore 10 f n ds = Nat.toDigitsCore 10 f n [] ++ ds := by
  intro f
  induction f with
  | zero => intro n ds; rw [Nat.toDigitsCore, Nat.toDigitsCore]; rfl
  | succ f ihf =>
    intro n ds
    rw [Nat.toDigitsCore, Nat.toDigitsCore]
    by_cases hz : n / 10 = 0
    · simp only [hz, if_true]
      rfl
    · simp only [hz, if_false]
      rw [ihf (n / 10) [Nat.digitChar (n % 10)],
        ihf (n / 10) (Nat.digitChar (n % 10) :: ds), List.append_assoc]
      rfl

theorem toDigits_split (n : Nat) (h : 10 ≤ n) :
    Nat.toDigits 10 n = Nat.toDigits 10 (n / 10) ++ [Nat.digitChar (n % 10)] := by
  have hz : ¬ n / 10 = 0 := by
    intro h2
    have := Nat.div_eq_of_lt (by omega : n < 10)
    omega
  rw [Nat.toDigits, Nat.toDigitsCore]
  simp only [hz, if_false]
  rw [toDigitsCore_acc n (n / 10) [Nat.digitChar (n % 10)],
    toDigitsCore_fuel (n / 10) n (n / 10 + 1) []
      (Nat.lt_of_lt_of_le (Nat.div_lt_self (by omega) (by omega)) (by omega))
      (Nat.lt_succ_self _)]
  rfl

theorem toDigits_single (n : Nat) (h : n < 10) :
    Nat.toDigits 10 n = [Nat.digitChar n] := by
  have hz : n / 10 = 0 := Nat.div_eq_of_lt h
  rw [Nat.toDigits, Nat.toDigitsCore]
  simp only [hz, if_true]
  rw [Nat.mod_eq_of_lt h]

theorem digitChar_val : ∀ m, m < 10 → (Nat.digitChar m).toNat - ('0').toNat = m := by
  decide

theorem digitChar_ne_colon : ∀ m, m < 10 → Nat.digitChar m ≠ ':' := by
  decide

theorem toDigits_val : ∀ n, (Nat.toDigits 10 n).foldl
    (fun a c => a * 10 + (c.toNat - ('0').toNat)) 0 = n := by
  intro n
  induction n using Nat.strong_induction_on with
  | _ n ih =>
    by_cases h : n < 10
    · rw [toDigits_single n h]
      simp only [List.foldl_cons, List.foldl_nil, Nat.zero_mul, Nat.zero_add]
      exact digitChar_val n h
    · rw [toDigits_split n (by omega), List.foldl_append]
      rw [ih (n / 10) (Nat.div_lt_self (by omega) (by omega))]
      simp only [List.foldl_cons, List.foldl_nil]
      rw [digitChar_val (n % 10) (Nat.mod_lt n (by omega))]
      omega

theorem toDigits_no_colon : ∀ n, ∀ c ∈ Nat.toDigits 10 n, c ≠ ':' := by
  intro n
  induction n using Nat.strong_induction_on with
  | _ n ih =>
    intro c hc
    by_cases h : n < 10
    · rw [toDigits_single n h, List.mem_singleton] at hc
      exact hc ▸ digitChar_ne_colon n h
    · rw [toDigits_split n (by omega)] at hc
      rcases List.mem_append.mp hc with hc | hc
      · exact ih (n / 10) (Nat.div_lt_self (by omega) (by omega)) c hc
      · rw [List.mem_singleton] at hc
        exact hc ▸ digitChar_ne_colon (n % 10) (Nat.mod_lt n (by omega))

theorem repr_data (n : Nat) : (Nat.repr n).data = Nat.toDigits 10 n := rfl

theorem valOfRevDigits_repr (n : Nat) :
    valOfRevDigits ((Nat.repr n).data.reverse) = n := by
  rw [valOfRevDigits, List.reverse_reverse, repr_data]
  exact toDigits_val n

theorem takeWhile_until_colon (xs rest : List Char) (h : ∀ x ∈ xs, ¬ x = ':') :
    (xs ++ ':' :: rest).takeWhile (fun c => c ≠ ':') = xs := by
  induction xs with
  | nil => simp [List.takeWhile]
  | cons x xs2 ihx =>
    have hx : ¬ x = ':' := h x (by simp)
    rw [List.cons_append, List.takeWhile_cons, if_pos (by simp [hx]),
      ihx (fun y hy => h y (by simp [hy]))]

theorem counterChars_concat (l : String) (n : Nat) :
    counterChars (l ++ "::" ++ Nat.repr n) = (Nat.repr n).data.reverse := by
  rw [counterChars]
  have hdata : (l ++ "::" ++ Nat.repr n).data
      = l.data ++ (':' :: ':' :: (Nat.repr n).data) := by
    rw [String.data_append, String.data_append, List.append_assoc]
    rfl
  rw [hdata, List.reverse_append]
  have hmem : ∀ x ∈ (Nat.repr n).data.reverse, ¬ x = ':' := by
    intro x hx
    rw [List.mem_reverse, repr_data] at hx
    exact toDigits_no_colon n x hx
  calc ((':' :: ':' :: (Nat.repr n).data).reverse ++ l.data.reverse).takeWhile
        (fun c => c ≠ ':')
      = ((Nat.repr n).data.reverse ++ ':' :: (':' :: l.data.reverse)).takeWhile
        (fun c => c ≠ ':') := by
        simp
    _ = (Nat.repr n).data.reverse := takeWhile_until_colon _ _ hmem

theorem counter_inj (d1 d2 : String) (m1 m2 : Nat)
    (h1 : counterChars d1 = (Nat.repr m1).data.reverse)
    (h2 : counterChars d2 = (Nat.repr m2).data.reverse)
    (hd : d1 = d2) : m1 = m2 := by
  rw [hd, h2] at h1
  have := valOfRevDigits_repr m1
  rw [h1.symm, valOfRevDigits_repr] at this
  exact this.symm

theorem docIdsOf_detachOne (s : FrameManager) (f : Nat) :
    docIdsOf (detachOne s f) = docIdsOf s := by
  rw [detachOne]
  rcases h : mfind s.objs f with _ | o
  · rfl
  · simp [docIdsOf, List.filterMap_append]

theorem removal_docIds : ∀ fuel : Nat,
    (∀ f s s2, removeFramesRecursively fuel f s = some s2 →
      docIdsOf s2 = docIdsOf s)
    ∧ (∀ l s s2, removeListAux (removeFramesRecursively fuel) l s = some s2 →
      docIdsOf s2 = docIdsOf s) := by
  intro fuel
  induction fuel with
  | zero =>
    constructor
    · intro f s s2 h
      simp [removeFramesRecursively] at h
    · intro l s s2 h
      match l with
      | [] =>
        rw [removeListAux] at h
        cases h
        rfl
      | c :: rest =>
        rw [removeListAux] at h
        simp [removeFramesRecursively] at h
  | succ fu ihf =>
    have hsingle : ∀ f s s2, removeFramesRecursively (fu + 1) f s = some s2 →
        docIdsOf s2 = docIdsOf s := by
      intro f s s2 h
      rw [removeFramesRecursively] at h
      rcases ho : mfind s.objs f with _ | o
      · rw [ho] at h; exact absurd h (by simp)
      · rw [ho] at h
        simp only at h
        rcases hrl : removeListAux (removeFramesRecursively fu) o.childList s
          with _ | s1
        · rw [hrl] at h; exact absurd h (by simp)
        · rw [hrl] at h
          simp only [Option.some.injEq] at h
          subst h
          rw [docIdsOf_detachOne, ihf.2 o.childList s s1 hrl]
    have hlist : ∀ l s s2,
        removeListAux (removeFramesRecursively (fu + 1)) l s = some s2 →
        docIdsOf s2 = docIdsOf s := by
      intro l
      induction l with
      | nil =>
        intro s s2 h
        rw [removeListAux] at h
        cases h
        rfl
      | cons c rest ihl =>
        intro s s2 h
        rw [removeListAux] at h
        rcases hc : removeFramesRecursively (fu + 1) c s with _ | s1
        · rw [hc] at h; exact absurd h (by simp)
        · rw [hc] at h
          simp only at h
          rw [ihl s1 s2 h, hsingle c s s1 hc]
    exact ⟨hsingle, hlist⟩

theorem docIds_attached (s s2 : FrameManager) (fid : String) (pid : Option String)
    (h : FrameManager.onFrameAttached s fid pid = .ok s2) :
    docIdsOf s2 = docIdsOf s ∧ s2.lastDocumentId = s.lastDocumentId := by
  rw [FrameManager.onFrameAttached.eq_def] at h
  by_cases hex : (mfind s.registry fid).isSome
  · rw [if_pos hex] at h
    simp at h
  · rw [if_neg hex] at h
    simp only [Except.ok.injEq] at h
    subst h
    exact ⟨by simp [docIdsOf, List.filterMap_append], rfl⟩

theorem docIds_detached (s s2 : FrameManager) (fid : String)
    (h : FrameManager.onFrameDetached s fid = some s2) :
    docIdsOf s2 = docIdsOf s ∧ s2.lastDocumentId = s.lastDocumentId := by
  rw [FrameManager.onFrameDetached] at h
  rcases hr : mfind s.registry fid with _ | f
  · rw [hr] at h
    simp only [Option.some.injEq] at h
    subst h
    exact ⟨rfl, rfl⟩
  · rw [hr] at h
    simp only at h
    obtain ⟨rem, spec, -, -, -⟩ := (removal_spec_master s.nextFrame).1 f s s2 h
    exact ⟨(removal_docIds s.nextFrame).1 f s s2 h, spec.sameDoc⟩

theorem docIds_navigated (s s2 : FrameManager) (p : FramePayload) (b : Bool)
    (h : FrameManager.onFrameNavigated s p b = some s2) :
    docIdsOf s2 = docIdsOf s
        ++ [p.loaderId ++ "::" ++ Nat.repr (s.lastDocumentId + 1)]
      ∧ s2.lastDocumentId = s.lastDocumentId + 1 := by
  rw [FrameManager.onFrameNavigated] at h
  rcases hfq : (if p.parentId.isNone then s.mainFrame else mfind s.registry p.id)
    with _ | f
  · simp only [hfq] at h
    exact Option.noConfusion h
  · simp only [hfq] at h
    rcases ho : mfind s.objs f with _ | o
    · rw [ho] at h; exact absurd h (by simp)
    · rw [ho] at h
      simp only at h
      rcases hrl : removeList s.nextFrame o.childList s with _ | s1
      · rw [hrl] at h; exact absurd h (by simp)
      · rw [hrl] at h
        simp only [Option.some.injEq] at h
        subst h
        have hdoc1 : s1.lastDocumentId = s.lastDocumentId := by
          obtain ⟨rem, spec, -, -, -⟩ :=
            (removal_spec_master s.nextFrame).2 o.childList s s1 hrl
          exact spec.sameDoc
        have hids1 : docIdsOf s1 = docIdsOf s :=
          (removal_docIds s.nextFrame).2 o.childList s s1 hrl
        by_cases hmf : p.parentId.isNone
        · rcases ho1 : mfind s1.objs f with _ | o1 <;>
            cases b <;>
              simp only [docIdsOf] at hids1 ⊢ <;>
              simp [hmf, ho1, List.filterMap_append, hids1, hdoc1]
        · cases b <;>
            simp only [docIdsOf] at hids1 ⊢ <;>
            simp [hmf, List.filterMap_append, hids1, hdoc1]

theorem docIds_navigatedWithin (s s2 : FrameManager) (fid url : String)
    (h : FrameManager.onFrameNavigatedWithinDocument s fid url = some s2) :
    docIdsOf s2 = docIdsOf s ∧ s2.lastDocumentId = s.lastDocumentId := by
  rw [FrameManager.onFrameNavigatedWithinDocument] at h
  rcases hr : mfind s.registry fid with _ | f
  · rw [hr] at h
    simp only [Option.some.injEq] at h
    subst h
    exact ⟨rfl, rfl⟩
  · rw [hr] at h
    simp only [Option.some.injEq] at h
    subst h
    exact ⟨by simp [docIdsOf, List.filterMap_append], rfl⟩

theorem docIds_stoppedLoading (s s2 : FrameManager) (fid : String)
    (h : FrameManager.onFrameStoppedLoading s fid = some s2) :
    docIdsOf s2 = docIdsOf s ∧ s2.lastDocumentId = s.lastDocumentId := by
  rw [FrameManager.onFrameStoppedLoading] at h
  rcases hr : mfind s.registry fid with _ | f
  · rw [hr] at h
    simp only [Option.some.injEq] at h
    subst h
    exact ⟨rfl, rfl⟩
  · rw [hr] at h
    simp only at h
    rcases ho : mfind s.objs f with _ | o
    · rw [ho] at h; exact Option.noConfusion h
    · rw [ho] at h
      simp only [Option.some.injEq] at h
      subst h
      refine ⟨?_, rfl⟩
      simp only [docIdsOf]
      split_ifs <;> simp [List.filterMap_append]

theorem docIds_lifecycle (s s2 : FrameManager) (fid : String) (e : LifecycleEvent)
    (h : FrameManager.onLifecycleEvent s fid e = some s2) :
    docIdsOf s2 = docIdsOf s ∧ s2.lastDocumentId = s.lastDocumentId := by
  rw [FrameManager.onLifecycleEvent] at h
  rcases hr : mfind s.registry fid with _ | f
  · rw [hr] at h
    simp only [Option.some.injEq] at h
    subst h
    exact ⟨rfl, rfl⟩
  · rw [hr] at h
    simp only at h
    rcases ho : mfind s.objs f with _ | o
    · rw [ho] at h; exact Option.noConfusion h
    · rw [ho] at h
      simp only [Option.some.injEq] at h
      subst h
      refine ⟨?_, rfl⟩
      simp only [docIdsOf]
      split_ifs <;> simp [List.filterMap_append]

theorem docIds_contextCreated (s s2 : FrameManager) (cp : ContextPayload)
    (h : FrameManager.onExecutionContextCreated s cp = some s2) :
    docIdsOf s2 = docIdsOf s ∧ s2.lastDocumentId = s.lastDocumentId := by
  rw [FrameManager.onExecutionContextCreated] at h
  by_cases hex : (mfind s.contexts cp.id).isSome
  · rw [if_pos hex] at h
    simp only [Option.some.injEq] at h
    subst h
    exact ⟨rfl, rfl⟩
  · rw [if_neg hex] at h
    rcases hr : mfind s.registry cp.frameId with _ | f
    · rw [hr] at h
      simp only [Option.some.injEq] at h
      subst h
      exact ⟨rfl, rfl⟩
    · rw [hr] at h
      simp only [Option.some.injEq] at h
      subst h
      exact ⟨rfl, rfl⟩

theorem docIds_consoleMessage (s s2 : FrameManager) (ev : ConsoleMessagePayload)
    (h : FrameManager.onConsoleMessage s ev = some s2) :
    docIdsOf s2 = docIdsOf s ∧ s2.lastDocumentId = s.lastDocumentId := by
  rw [FrameManager.onConsoleMessage] at h
  rcases hbc : (if ev.level = "debug" then
      match ev.parameters with
      | none => some false
      | some [] => none
      | some (p0 :: _) => some (p0.value = some BINDING_CALL_MESSAGE)
    else some false) with _ | bc
  · simp only [hbc] at h
    exact Option.noConfusion h
  · simp only [hbc] at h
    rcases bc with _ | _
    · rcases hmf : s.mainFrame with _ | mf
      · rw [hmf] at h; exact Option.noConfusion h
      · rw [hmf] at h
        simp only at h
        rcases ho : mfind s.objs mf with _ | mo
        · rw [ho] at h; exact Option.noConfusion h
        · rw [ho] at h
          simp only at h
          rcases hc : mo.mainCtx with _ | mfc
          · rw [hc] at h; exact Option.noConfusion h
          · rw [hc] at h
            simp only at h
            rcases hh : hydrate s.contexts mfc (ev.parameters.getD []) with _ | handles
            · rw [hh] at h; exact Option.noConfusion h
            · rw [hh] at h
              simp only [Option.some.injEq] at h
              subst h
              exact ⟨by simp [docIdsOf, List.filterMap_append], rfl⟩
    · rcases hps : ev.parameters with _ | ps
      · rw [hps] at h
        exact Option.noConfusion h
      · rw [hps] at h
        match ps with
        | [] => exact Option.noConfusion h
        | [p1] => exact Option.noConfusion h
        | [p1, p2] => exact Option.noConfusion h
        | p1 :: p2 :: p3 :: rest =>
          simp only at h
          rcases hoid : p2.objectId with _ | oid
          · rw [hoid] at h; exact Option.noConfusion h
          · rw [hoid] at h
            simp only [Option.some.injEq] at h
            subst h
            exact ⟨by simp [docIdsOf, List.filterMap_append], rfl⟩

theorem forallTwo_append_single {R : String → Nat → Prop} :
    ∀ (ds : List String) (ns : List Nat), List.Forall₂ R ds ns → ∀ d n, R d n →
    List.Forall₂ R (ds ++ [d]) (ns ++ [n]) := by
  intro ds ns hf
  induction hf with
  | nil => intro d n h; exact List.Forall₂.cons h List.Forall₂.nil
  | cons h1 h2 ih => intro d n h; exact List.Forall₂.cons h1 (ih d n h)

theorem forallTwo_mem_left {R : String → Nat → Prop} :
    ∀ (ds : List String) (ns : List Nat), List.Forall₂ R ds ns → ∀ d ∈ ds,
    ∃ n ∈ ns, R d n := by
  intro ds ns hf
  induction hf with
  | nil => intro d hd; cases hd
  | cons h1 h2 ih =>
    rename_i a b l1 l2
    intro d hd
    rcases List.mem_cons.mp hd with hd | hd
    · exact ⟨b, by simp, hd ▸ h1⟩
    · obtain ⟨n, hn1, hn2⟩ := ih d hd
      exact ⟨n, by simp [hn1], hn2⟩

theorem reach_docInv (s : FrameManager) (h : Reach s) :
    ∃ ns : List Nat,
      List.Forall₂ (fun d m => counterChars d = ((Nat.repr m).data.reverse))
        (docIdsOf s) ns
      ∧ ns.Pairwise (fun a b => a < b)
      ∧ ∀ m ∈ ns, m ≤ s.lastDocumentId := by
  induction h with
  | init =>
    have he : docIdsOf initFM = [] := rfl
    exact ⟨[], he ▸ List.Forall₂.nil, List.Pairwise.nil, by simp⟩
  | attached s1 s2 fid pid hr hstep ih =>
    obtain ⟨ns, h1, h2, h3⟩ := ih
    obtain ⟨he, hd⟩ := docIds_attached s1 s2 fid pid hstep
    refine ⟨ns, ?_, h2, ?_⟩
    · rw [he]; exact h1
    · rw [hd]; exact h3
  | navigated s1 s2 p b hr hstep ih =>
    obtain ⟨ns, h1, h2, h3⟩ := ih
    obtain ⟨he, hd⟩ := docIds_navigated s1 s2 p b hstep
    refine ⟨ns ++ [s1.lastDocumentId + 1], ?_, ?_, ?_⟩
    · rw [he]
      exact forallTwo_append_single _ _ h1 _ _ (counterChars_concat p.loaderId _)
    · rw [List.pairwise_append]
      refine ⟨h2, List.pairwise_singleton _ _, fun a ha b2 hb => ?_⟩
      rw [List.mem_singleton] at hb
      subst hb
      exact Nat.lt_succ_of_le (h3 a ha)
    · intro m hm
      rw [hd]
      rcases List.mem_append.mp hm with hm | hm
      · exact Nat.le_succ_of_le (h3 m hm)
      · rw [List.mem_singleton] at hm
        subst hm
        exact Nat.le_refl _
  | navigatedWithin s1 s2 fid url hr hstep ih =>
    obtain ⟨ns, h1, h2, h3⟩ := ih
    obtain ⟨he, hd⟩ := docIds_navigatedWithin s1 s2 fid url hstep
    refine ⟨ns, ?_, h2, ?_⟩
    · rw [he]; exact h1
    · rw [hd]; exact h3
  | detached s1 s2 fid hr hstep ih =>
    obtain ⟨ns, h1, h2, h3⟩ := ih
    obtain ⟨he, hd⟩ := docIds_detached s1 s2 fid hstep
    refine ⟨ns, ?_, h2, ?_⟩
    · rw [he]; exact h1
    · rw [hd]; exact h3
  | stoppedLoading s1 s2 fid hr hstep ih =>
    obtain ⟨ns, h1, h2, h3⟩ := ih
    obtain ⟨he, hd⟩ := docIds_stoppedLoading s1 s2 fid hstep
    refine ⟨ns, ?_, h2, ?_⟩
    · rw [he]; exact h1
    · rw [hd]; exact h3
  | lifecycle s1 s2 fid e hr hstep ih =>
    obtain ⟨ns, h1, h2, h3⟩ := ih
    obtain ⟨he, hd⟩ := docIds_lifecycle s1 s2 fid e hstep
    refine ⟨ns, ?_, h2, ?_⟩
    · rw [he]; exact h1
    · rw [hd]; exact h3
  | contextCreated s1 s2 cp hr hstep ih =>
    obtain ⟨ns, h1, h2, h3⟩ := ih
    obtain ⟨he, hd⟩ := docIds_contextCreated s1 s2 cp hstep
    refine ⟨ns, ?_, h2, ?_⟩
    · rw [he]; exact h1
    · rw [hd]; exact h3
  | consoleMessage s1 s2 ev hr hstep ih =>
    obtain ⟨ns, h1, h2, h3⟩ := ih
    obtain ⟨he, hd⟩ := docIds_consoleMessage s1 s2 ev hstep
    refine ⟨ns, ?_, h2, ?_⟩
    · rw [he]; exact h1
    · rw [hd]; exact h3

/-- C4: in every state reachable through any sequence of successful handler
invocations, the committed document ids recorded by `_onFrameNavigated`
(each allocated as `loaderId + '::' + (++lastDocumentId)`) are pairwise
distinct, even when navigations share the same `loaderId`. -/
theorem c4_document_id_uniqueness (s : FrameManager) (h : Reach s) :
    (docIdsOf s).Pairwise (fun d1 d2 => d1 ≠ d2) := by
  obtain ⟨ns, h1, h2, -⟩ := reach_docInv s h
  clear h
  generalize hg : docIdsOf s = ds0 at h1 ⊢
  clear hg
  revert h2
  induction h1 with
  | nil => intro h2; exact List.Pairwise.nil
  | cons hdm htl ih =>
    rename_i d m ds ms
    intro hp
    rw [List.pairwise_cons] at hp ⊢
    obtain ⟨hhead, htail⟩ := hp
    refine ⟨?_, ih htail⟩
    intro d2 hd2 heq
    obtain ⟨m2, hm2, hrel2⟩ := forallTwo_mem_left ds ms htl d2 hd2
    have hmm : m = m2 := counter_inj d d2 m m2 hdm hrel2 heq
    exact absurd (hmm ▸ hhead m2 hm2) (lt_irrefl m2)

/-- Witness for C4: a concrete run attaching a main frame and navigating it
twice with the same loader id `"L"` reaches a state whose committed
document ids are `"L::1"` and `"L::2"`, pairwise distinct. -/
theorem c4_witness :
    Reach navTwice
    ∧ docIdsOf navTwice = [("L::1"), ("L::2")]
    ∧ (docIdsOf navTwice).Pairwise (fun d1 d2 => d1 ≠ d2) := by
  have h1 : FrameManager.onFrameAttached initFM ("a") none = .ok attachedA := rfl
  have h2 : FrameManager.onFrameNavigated attachedA navPayB false = some navOnce :=
    rfl
  have h3 : FrameManager.onFrameNavigated navOnce navPayC false = some navTwice :=
    rfl
  have hreach : Reach navTwice :=
    Reach.navigated navOnce navTwice navPayC false
      (Reach.navigated attachedA navOnce navPayB false
        (Reach.attached initFM attachedA ("a") none Reach.init h1) h2) h3
  exact ⟨hreach, by decide, c4_document_id_uniqueness navTwice hreach⟩

/-! ### Claim C8: registry shape invariants -/

theorem nodup_keys_filter (m : List (String × Nat)) (q : String × Nat → Bool)
    (h : (m.map Prod.fst).Nodup) : ((m.filter q).map Prod.fst).Nodup :=
  ((List.filter_sublist m).map Prod.fst).nodup h

theorem mdel_keys_nodup (m : List (String × Nat)) (k : String)
    (h : (m.map Prod.fst).Nodup) : ((mdel m k).map Prod.fst).Nodup := by
  rw [mdel]
  exact nodup_keys_filter m _ h

theorem nodup_keys_mput (m : List (String × Nat)) (k : String) (v : Nat)
    (h : (m.map Prod.fst).Nodup) : ((mput m k v).map Prod.fst).Nodup := by
  rw [mput, List.map_cons, List.nodup_cons]
  constructor
  · intro hk
    rw [List.mem_map] at hk
    obtain ⟨kv, hkv, hfst⟩ := hk
    rw [mdel, List.mem_filter] at hkv
    have := hkv.2
    rw [hfst] at this
    simp at this
  · exact mdel_keys_nodup m k h

theorem reg_key_unique (s : FrameManager) (hinv : RegInv s) (k1 k2 : String)
    (g : Nat) (h1 : mfind s.registry k1 = some g)
    (h2 : mfind s.registry k2 = some g) : k1 = k2 := by
  obtain ⟨o1, ho1, hd1, -, -⟩ := hinv.regObj k1 g h1
  obtain ⟨o2, ho2, hd2, -, -⟩ := hinv.regObj k2 g h2
  rw [ho1] at ho2
  have : o1 = o2 := (Option.some.injEq _ _).mp ho2
  rw [← hd1, ← hd2, this]

theorem rem_registered (s : FrameManager) (rem R : List Nat) (hinv : RegInv s)
    (hroots : ∀ r ∈ R, Registered s r)
    (horigin : ∀ x ∈ rem, x ∈ R ∨
      ∃ y ∈ rem, ∃ o, mfind s.objs y = some o ∧ x ∈ o.childList)
    (hclosure : ∀ y ∈ rem, ∀ o, mfind s.objs y = some o →
      ∀ c ∈ o.childList, c ∈ rem) :
    ∀ x ∈ rem, Registered s x := by
  intro x
  induction x using Nat.strong_induction_on with
  | _ x ih =>
    intro hx
    rcases horigin x hx with hR | ⟨y, hy, o, ho, hxo⟩
    · exact hroots x hR
    · have hyx : y < x := hinv.heapOrder y o ho x hxo
      have hyreg : Registered s y := ih y hyx hy
      exact (hinv.childOk y o hyreg ho x hxo).1

theorem rem_parent (s : FrameManager) (rem R : List Nat) (hinv : RegInv s)
    (hroots : ∀ r ∈ R, Registered s r)
    (horigin : ∀ x ∈ rem, x ∈ R ∨
      ∃ y ∈ rem, ∃ o, mfind s.objs y = some o ∧ x ∈ o.childList)
    (hclosure : ∀ y ∈ rem, ∀ o, mfind s.objs y = some o →
      ∀ c ∈ o.childList, c ∈ rem) :
    ∀ x ∈ rem, x ∈ R ∨ ∃ y ∈ rem, frameParent s x = some y := by
  intro x hx
  rcases horigin x hx with hR | ⟨y, hy, o, ho, hxo⟩
  · exact Or.inl hR
  · have hyreg : Registered s y :=
      rem_registered s rem R hinv hroots horigin hclosure y hy
    exact Or.inr ⟨y, hy, (hinv.childOk y o hyreg ho x hxo).2.1⟩

theorem removal_frameParent (s s1 : FrameManager) (rem : List Nat)
    (spec : RemovalSpec s s1 rem) :
    ∀ g, frameParent s1 g = frameParent s g := by
  intro g
  rw [frameParent, frameParent]
  rcases ho : mfind s.objs g with _ | o
  · rw [spec.objNone g ho]
  · obtain ⟨o2, ho2, -, hp, -⟩ := spec.objSome g o ho
    rw [ho2]
    exact hp

theorem removal_registry_iff (s s1 : FrameManager) (rem : List Nat)
    (hinv : RegInv s) (spec : RemovalSpec s s1 rem)
    (hremreg : ∀ x ∈ rem, Registered s x) :
    ∀ k g, mfind s1.registry k = some g ↔
      (mfind s.registry k = some g ∧ ¬ g ∈ rem) := by
  intro k g
  rw [spec.regPoint k]
  by_cases hk : k ∈ rem.filterMap (frameDataId s)
  · rw [if_pos hk]
    constructor
    · intro h; exact Option.noConfusion h
    · rintro ⟨h1, h2⟩
      rw [List.mem_filterMap] at hk
      obtain ⟨x, hx, hdx⟩ := hk
      obtain ⟨kx, hkx⟩ := hremreg x hx
      obtain ⟨ox, hox, hdox, -, -⟩ := hinv.regObj kx x hkx
      rw [frameDataId, hox] at hdx
      simp only [Option.map_some', Option.some.injEq] at hdx
      rw [hdox] at hdx
      subst hdx
      rw [hkx] at h1
      have : x = g := (Option.some.injEq _ _).mp h1
      exact absurd (this ▸ hx) h2
  · rw [if_neg hk]
    constructor
    · intro h1
      refine ⟨h1, fun hg => hk ?_⟩
      obtain ⟨o, ho, hd, -, -⟩ := hinv.regObj k g h1
      rw [List.mem_filterMap]
      exact ⟨g, hg, by rw [frameDataId, ho, Option.map_some', hd]⟩
    · exact fun h => h.1

theorem regInv_removal (s s1 : FrameManager) (rem R : List Nat)
    (hinv : RegInv s) (spec : RemovalSpec s s1 rem)
    (hroots : ∀ r ∈ R, Registered s r)
    (horigin : ∀ x ∈ rem, x ∈ R ∨
      ∃ y ∈ rem, ∃ o, mfind s.objs y = some o ∧ x ∈ o.childList)
    (hclosure : ∀ y ∈ rem, ∀ o, mfind s.objs y = some o →
      ∀ c ∈ o.childList, c ∈ rem)
    (hmainR : ∀ r ∈ R, s.mainFrame ≠ some r) :
    RegInv s1 := by
  have hremreg := rem_registered s rem R hinv hroots horigin hclosure
  have hiff := removal_registry_iff s s1 rem hinv spec hremreg
  have hpar := removal_frameParent s s1 rem spec
  have hmainrem : ∀ m, s.mainFrame = some m → frameParent s m = none →
      ¬ m ∈ rem := by
    intro m hm hpm hmr
    rcases rem_parent s rem R hinv hroots horigin hclosure m hmr with
      hR | ⟨y, hy, hp⟩
    · exact hmainR m hR hm
    · rw [hpm] at hp
      exact Option.noConfusion hp
  constructor
  · obtain ⟨P, hP⟩ := spec.regFilter
    rw [hP]
    exact nodup_keys_filter _ _ hinv.nodupKeys
  · intro k g h
    obtain ⟨h1, h2⟩ := (hiff k g).mp h
    obtain ⟨o, ho, hd, hdet, hlt⟩ := hinv.regObj k g h1
    obtain ⟨o2, ho2, hdid, -, -, -, -, -, -, -, -, -, hdet2⟩ := spec.objSome g o ho
    refine ⟨o2, ho2, by rw [hdid, hd], ?_, by rw [spec.sameNext]; exact hlt⟩
    rw [hdet2, hdet]
    simp [h2]
  · rcases hinv.mainOk with ⟨hre, hmn⟩ | ⟨m, hm, hregm, hpm, huniq⟩
    · left
      obtain ⟨P, hP⟩ := spec.regFilter
      exact ⟨by rw [hP, hre]; rfl, by rw [spec.sameMain]; exact hmn⟩
    · right
      refine ⟨m, by rw [spec.sameMain]; exact hm, ?_, ?_, ?_⟩
      · obtain ⟨k, hk⟩ := hregm
        exact ⟨k, (hiff k m).mpr ⟨hk, hmainrem m hm hpm⟩⟩
      · rw [hpar m]
        exact hpm
      · intro f hf hpf
        obtain ⟨k, hk⟩ := hf
        obtain ⟨h1, -⟩ := (hiff k f).mp hk
        exact huniq f ⟨k, h1⟩ (by rw [← hpar f]; exact hpf)
  · intro p o2 hregp ho2p
    obtain ⟨k, hk⟩ := hregp
    obtain ⟨h1, h2⟩ := (hiff k p).mp hk
    obtain ⟨o, ho, -, -, -⟩ := hinv.regObj k p h1
    obtain ⟨o2b, ho2b, -, -, -, -, -, -, -, -, hsub, -, -⟩ := spec.objSome p o ho
    rw [ho2p] at ho2b
    have heq : o2 = o2b := (Option.some.injEq _ _).mp ho2b
    intro c hc
    have hcb : c ∈ o2b.childList := heq ▸ hc
    have hcold : c ∈ o.childList := hsub hcb
    obtain ⟨hcreg, hcpar, hplt⟩ := hinv.childOk p o ⟨k, h1⟩ ho c hcold
    have hcrem : ¬ c ∈ rem := by
      intro hcr
      exact spec.absent c hcr p hcpar o2b (ho2p.trans (congrArg some heq)) hcb
    refine ⟨?_, ?_, hplt⟩
    · obtain ⟨kc, hkc⟩ := hcreg
      exact ⟨kc, (hiff kc c).mpr ⟨hkc, hcrem⟩⟩
    · rw [hpar c]
      exact hcpar
  · intro c q hregc hpc
    obtain ⟨k, hk⟩ := hregc
    obtain ⟨h1, h2⟩ := (hiff k c).mp hk
    have hpcs : frameParent s c = some q := by rw [← hpar c]; exact hpc
    obtain ⟨hregq, o, ho, hco⟩ := hinv.parentOk c q ⟨k, h1⟩ hpcs
    have hqrem : ¬ q ∈ rem := fun hqr => h2 (hclosure q hqr o ho c hco)
    obtain ⟨o2, ho2, -, -, -, -, -, -, -, -, -, hmem, -⟩ := spec.objSome q o ho
    refine ⟨?_, o2, ho2, ?_⟩
    · obtain ⟨kq, hkq⟩ := hregq
      exact ⟨kq, (hiff kq q).mpr ⟨hkq, hqrem⟩⟩
    · rcases hmem c hco with h | h
      · exact h
      · exact absurd h h2
  · intro g o2 ho2 c hc
    rcases ho : mfind s.objs g with _ | o
    · rw [spec.objNone g ho] at ho2
      exact Option.noConfusion ho2
    · obtain ⟨o2b, ho2b, -, -, -, -, -, -, -, -, hsub, -, -⟩ := spec.objSome g o ho
      rw [ho2] at ho2b
      have heq : o2 = o2b := (Option.some.injEq _ _).mp ho2b
      exact hinv.heapOrder g o ho c (hsub (heq ▸ hc))

theorem regInv_congr (s s2 : FrameManager)
    (hreg : s2.registry = s.registry)
    (hnext : s2.nextFrame = s.nextFrame)
    (hmain : s2.mainFrame = s.mainFrame)
    (hobj : ∀ g, (mfind s2.objs g).map
        (fun o => (o.dataId, o.parent, o.childList, o.detached))
      = (mfind s.objs g).map
        (fun o => (o.dataId, o.parent, o.childList, o.detached)))
    (hinv : RegInv s) : RegInv s2 := by
  have hget : ∀ g o, mfind s.objs g = some o → ∃ o2, mfind s2.objs g = some o2
      ∧ o2.dataId = o.dataId ∧ o2.parent = o.parent ∧ o2.childList = o.childList
      ∧ o2.detached = o.detached := by
    intro g o ho
    have h := hobj g
    rw [ho, Option.map_some'] at h
    rcases ho2 : mfind s2.objs g with _ | o2
    · rw [ho2] at h
      exact Option.noConfusion h
    · rw [ho2, Option.map_some'] at h
      have h3 := (Option.some.injEq _ _).mp h
      simp only [Prod.mk.injEq] at h3
      exact ⟨o2, rfl, h3.1, h3.2.1, h3.2.2.1, h3.2.2.2⟩
  have hget2 : ∀ g o2, mfind s2.objs g = some o2 → ∃ o, mfind s.objs g = some o
      ∧ o2.dataId = o.dataId ∧ o2.parent = o.parent ∧ o2.childList = o.childList
      ∧ o2.detached = o.detached := by
    intro g o2 ho2
    have h := hobj g
    rw [ho2, Option.map_some'] at h
    rcases ho : mfind s.objs g with _ | o
    · rw [ho] at h
      exact Option.noConfusion h
    · rw [ho, Option.map_some'] at h
      have h3 := (Option.some.injEq _ _).mp h
      simp only [Prod.mk.injEq] at h3
      exact ⟨o, rfl, h3.1, h3.2.1, h3.2.2.1, h3.2.2.2⟩
  have hpar : ∀ g, frameParent s2 g = frameParent s g := by
    intro g
    rw [frameParent, frameParent]
    rcases ho : mfind s.objs g with _ | o
    · rcases ho2 : mfind s2.objs g with _ | o2
      · rfl
      · obtain ⟨o3, ho3, -⟩ := hget2 g o2 ho2
        rw [ho] at ho3
        exact Option.noConfusion ho3
    · obtain ⟨o2, ho2, -, hp, -, -⟩ := hget g o ho
      rw [ho2]
      exact hp
  have hregd : ∀ f, Registered s2 f ↔ Registered s f := by
    intro f
    rw [Registered, Registered, hreg]
  constructor
  · rw [hreg]
    exact hinv.nodupKeys
  · intro k g h
    rw [hreg] at h
    obtain ⟨o, ho, hd, hdet, hlt⟩ := hinv.regObj k g h
    obtain ⟨o2, ho2, hd2, -, -, hdet2⟩ := hget g o ho
    exact ⟨o2, ho2, hd2.trans hd, hdet2.trans hdet, hnext ▸ hlt⟩
  · rcases hinv.mainOk with ⟨h1, h2⟩ | ⟨m, hm, hr, hp, hu⟩
    · exact Or.inl ⟨hreg ▸ h1, hmain ▸ h2⟩
    · right
      refine ⟨m, hmain ▸ hm, (hregd m).mpr hr, (hpar m).trans hp,
        fun f hf hpf => hu f ((hregd f).mp hf) ((hpar f).symm.trans hpf)⟩
  · intro p o2 hregp ho2
    obtain ⟨o, ho, -, -, hcl, -⟩ := hget2 p o2 ho2
    intro c hc
    obtain ⟨hcreg, hcpar, hplt⟩ :=
      hinv.childOk p o ((hregd p).mp hregp) ho c (hcl ▸ hc)
    exact ⟨(hregd c).mpr hcreg, (hpar c).trans hcpar, hplt⟩
  · intro c q hregc hpc
    obtain ⟨hregq, o, ho, hco⟩ :=
      hinv.parentOk c q ((hregd c).mp hregc) ((hpar c).symm.trans hpc)
    obtain ⟨o2, ho2, -, -, hcl, -⟩ := hget q o ho
    exact ⟨(hregd q).mpr hregq, o2, ho2, hcl ▸ hco⟩
  · intro g o2 ho2 c hc
    obtain ⟨o, ho, -, -, hcl, -⟩ := hget2 g o2 ho2
    exact hinv.heapOrder g o ho c (hcl ▸ hc)

theorem regInv_init : RegInv initFM := by
  constructor
  · simp [initFM]
  · intro k g h
    simp [initFM, mfind] at h
  · exact Or.inl ⟨rfl, rfl⟩
  · intro p o h ho
    simp [initFM, mfind] at ho
  · intro c p hc hp
    obtain ⟨k, hk⟩ := hc
    simp [initFM, mfind] at hk
  · intro g o ho
    simp [initFM, mfind] at ho

theorem regInv_attachRoot (s s2 : FrameManager) (fid : String)
    (hinv : RegInv s) (hre : s.registry = [])
    (h : FrameManager.onFrameAttached s fid none = .ok s2) : RegInv s2 := by
  rw [FrameManager.onFrameAttached.eq_def] at h
  have hfid : mfind s.registry fid = none := by rw [hre]; rfl
  rw [hfid] at h
  simp only [Option.isSome_none, Bool.false_eq_true, if_false,
    Except.ok.injEq] at h
  subst h
  have hregc : mput s.registry fid s.nextFrame = [(fid, s.nextFrame)] := by
    rw [hre]
    rfl
  have hlook : ∀ k g, mfind [(fid, s.nextFrame)] k = some g →
      k = fid ∧ g = s.nextFrame := by
    intro k g hk
    rw [mfind] at hk
    by_cases hkf : fid = k
    · rw [if_pos hkf] at hk
      exact ⟨hkf.symm, ((Option.some.injEq _ _).mp hk).symm⟩
    · rw [if_neg hkf] at hk
      exact Option.noConfusion hk
  constructor
  · simp only [hregc, List.map_cons, List.map_nil]
    exact List.nodup_singleton fid
  · intro k g hk
    rw [hregc] at hk
    obtain ⟨hk1, hk2⟩ := hlook k g hk
    subst hk1
    subst hk2
    refine ⟨_, mfind_mput_self s.objs s.nextFrame _, rfl, rfl, Nat.lt_succ_self _⟩
  · right
    refine ⟨s.nextFrame, rfl, ⟨fid, by rw [hregc, mfind, if_pos rfl]⟩, ?_, ?_⟩
    · rw [frameParent, mfind_mput_self]
    · intro f hf hpf
      obtain ⟨k, hk⟩ := hf
      rw [hregc] at hk
      exact (hlook k f hk).2
  · intro p o hp ho
    obtain ⟨k, hk⟩ := hp
    rw [hregc] at hk
    obtain ⟨-, hk2⟩ := hlook k p hk
    subst hk2
    rw [mfind_mput_self] at ho
    have hcl : o.childList = [] := by
      rw [← (Option.some.injEq _ _).mp ho]
    intro c hc
    rw [hcl] at hc
    cases hc
  · intro c p hc hpc
    obtain ⟨k, hk⟩ := hc
    rw [hregc] at hk
    obtain ⟨-, hk2⟩ := hlook k c hk
    subst hk2
    rw [frameParent, mfind_mput_self] at hpc
    simp at hpc
  · intro g o ho c hc
    by_cases hgf : g = s.nextFrame
    · subst hgf
      rw [mfind_mput_self] at ho
      have hcl : o.childList = [] := by
        rw [← (Option.some.injEq _ _).mp ho]
      rw [hcl] at hc
      cases hc
    · rw [mfind_mput_ne _ _ _ _ (fun h2 => hgf h2.symm)] at ho
      exact hinv.heapOrder g o ho c hc

theorem regInv_attachChild (s s2 : FrameManager) (fid pid : String) (p : Nat)
    (hinv : RegInv s) (hpr : mfind s.registry pid = some p)
    (h : FrameManager.onFrameAttached s fid (some pid) = .ok s2) : RegInv s2 := by
  rw [FrameManager.onFrameAttached.eq_def] at h
  by_cases hex : (mfind s.registry fid).isSome
  · rw [if_pos hex] at h
    simp at h
  · rw [if_neg hex] at h
    have hfid : mfind s.registry fid = none := by
      rcases hh : mfind s.registry fid with _ | v
      · rfl
      · rw [hh] at hex
        simp at hex
    simp only [hpr, Option.isNone_some, Bool.false_eq_true, if_false,
      Except.ok.injEq] at h
    subst h
    obtain ⟨op, hop, hopd, hopdet, hplt⟩ := hinv.regObj pid p hpr
    have hpf : p ≠ s.nextFrame := fun h2 => absurd (h2 ▸ hplt) (lt_irrefl _)
    have hobj2 : ∀ g, mfind (mupd (mput s.objs s.nextFrame
        { dataId := fid, parent := some p, childList := [], fired := [],
          detached := false, url := "", name := "", docId := none,
          mainCtx := none, utilityCtx := none }) p
        (fun o => { o with childList := o.childList ++ [s.nextFrame] })) g =
        if g = p then
          some { op with childList := op.childList ++ [s.nextFrame] }
        else if g = s.nextFrame then
          some { dataId := fid, parent := some p, childList := [], fired := [],
                 detached := false, url := "", name := "", docId := none,
                 mainCtx := none, utilityCtx := none }
        else mfind s.objs g := by
      intro g
      by_cases hgp : g = p
      · subst hgp
        rw [if_pos rfl, mfind_mupd_self,
          mfind_mput_ne _ _ _ _ (fun h2 => hpf h2.symm), hop, Option.map_some']
      · rw [if_neg hgp, mfind_mupd_ne _ _ _ _ (fun h2 => hgp h2.symm)]
        by_cases hgf : g = s.nextFrame
        · subst hgf
          rw [if_pos rfl, mfind_mput_self]
        · rw [if_neg hgf, mfind_mput_ne _ _ _ _ (fun h2 => hgf h2.symm)]
    have hreg2 : ∀ k g, mfind (mput s.registry fid s.nextFrame) k = some g →
        (k = fid ∧ g = s.nextFrame) ∨
        (k ≠ fid ∧ mfind s.registry k = some g) := by
      intro k g hk
      by_cases hkf : k = fid
      · subst hkf
        rw [mfind_mput_self] at hk
        exact Or.inl ⟨rfl, ((Option.some.injEq _ _).mp hk).symm⟩
      · rw [mfind_mput_ne _ _ _ _ (fun h2 => hkf h2.symm)] at hk
        exact Or.inr ⟨hkf, hk⟩
    have hregold : ∀ g, Registered s g →
        Registered { s with
          nextFrame := s.nextFrame + 1,
          objs := mupd (mput s.objs s.nextFrame
              { dataId := fid, parent := some p, childList := [], fired := [],
                detached := false, url := "", name := "", docId := none,
                mainCtx := none, utilityCtx := none }) p
            (fun o => { o with childList := o.childList ++ [s.nextFrame] }),
          registry := mput s.registry fid s.nextFrame,
          mainFrame := s.mainFrame,
          events := s.events ++ [Evt.frameAttached s.nextFrame,
            Evt.pageFrameAttached s.nextFrame] } g := by
      intro g hg
      obtain ⟨k, hk⟩ := hg
      have hkf : k ≠ fid := by
        intro h2
        rw [h2, hfid] at hk
        exact Option.noConfusion hk
      exact ⟨k, by
        show mfind (mput s.registry fid s.nextFrame) k = some g
        rw [mfind_mput_ne _ _ _ _ (fun h2 => hkf h2.symm)]
        exact hk⟩
    have hglt : ∀ g, Registered s g → g < s.nextFrame := by
      intro g hg
      obtain ⟨k, hk⟩ := hg
      exact (hinv.regObj k g hk).choose_spec.2.2.2
    have hpar2 : ∀ g, g ≠ s.nextFrame →
        frameParent { s with
          nextFrame := s.nextFrame + 1,
          objs := mupd (mput s.objs s.nextFrame
              { dataId := fid, parent := some p, childList := [], fired := [],
                detached := false, url := "", name := "", docId := none,
                mainCtx := none, utilityCtx := none }) p
            (fun o => { o with childList := o.childList ++ [s.nextFrame] }),
          registry := mput s.registry fid s.nextFrame,
          mainFrame := s.mainFrame,
          events := s.events ++ [Evt.frameAttached s.nextFrame,
            Evt.pageFrameAttached s.nextFrame] } g = frameParent s g := by
      intro g hgf
      rw [frameParent, frameParent, hobj2 g, if_neg hgf]
      by_cases hgp : g = p
      · subst hgp
        rw [if_pos rfl, hop]
      · rw [if_neg hgp]
    constructor
    · exact nodup_keys_mput _ _ _ hinv.nodupKeys
    · intro k g hk
      rcases hreg2 k g hk with ⟨hk1, hk2⟩ | ⟨hk1, hk2⟩
      · subst hk2
        refine ⟨{ dataId := fid, parent := some p, childList := [], fired := [],
                  detached := false, url := "", name := "", docId := none,
                  mainCtx := none, utilityCtx := none }, ?_, hk1.symm, rfl,
          Nat.lt_succ_self _⟩
        show mfind _ s.nextFrame = _
        rw [hobj2 s.nextFrame, if_neg (fun h2 => hpf h2.symm), if_pos rfl]
      · obtain ⟨o, ho, hd, hdet, hlt⟩ := hinv.regObj k g hk2
        by_cases hgp : g = p
        · have hoeq : op = o := by
            rw [hgp, hop] at ho
            exact (Option.some.injEq _ _).mp ho
          refine ⟨{ op with childList := op.childList ++ [s.nextFrame] },
            ?_, ?_, ?_, Nat.lt_succ_of_lt hlt⟩
          · rw [hgp, hobj2 p, if_pos rfl]
          · show op.dataId = k
            rw [hoeq]
            exact hd
          · show op.detached = false
            rw [hoeq]
            exact hdet
        · refine ⟨o, ?_, hd, hdet, Nat.lt_succ_of_lt hlt⟩
          show mfind _ g = some o
          rw [hobj2 g, if_neg hgp,
            if_neg (fun h2 => absurd (h2 ▸ hlt) (lt_irrefl _)), ho]
    · rcases hinv.mainOk with ⟨hre, -⟩ | ⟨m, hm, hregm, hpm, huniq⟩
      · rw [hre] at hpr
        exact absurd hpr (by rw [mfind]; exact Option.noConfusion)
      · right
        refine ⟨m, hm, hregold m hregm, ?_, ?_⟩
        · rw [hpar2 m (fun h2 => absurd (h2 ▸ hglt m hregm) (lt_irrefl _))]
          exact hpm
        · intro f hf hpf2
          obtain ⟨k, hk⟩ := hf
          rcases hreg2 k f hk with ⟨hk1, hk2⟩ | ⟨hk1, hk2⟩
          · subst hk2
            rw [frameParent, hobj2 s.nextFrame,
              if_neg (fun h2 => hpf h2.symm), if_pos rfl] at hpf2
            exact Option.noConfusion hpf2
          · have hflt : f < s.nextFrame := hglt f ⟨k, hk2⟩
            rw [hpar2 f (fun h2 => absurd (h2 ▸ hflt) (lt_irrefl _))] at hpf2
            exact huniq f ⟨k, hk2⟩ hpf2
    · intro p2 o2 hregp2 ho2
      obtain ⟨k, hk⟩ := hregp2
      rcases hreg2 k p2 hk with ⟨hk1, hk2⟩ | ⟨hk1, hk2⟩
      · subst hk2
        rw [hobj2 s.nextFrame, if_neg (fun h2 => hpf h2.symm), if_pos rfl] at ho2
        have hcl : o2.childList = [] := by
          rw [← (Option.some.injEq _ _).mp ho2]
        intro c hc
        rw [hcl] at hc
        cases hc
      · have hp2lt : p2 < s.nextFrame := hglt p2 ⟨k, hk2⟩
        by_cases hgp : p2 = p
        · subst hgp
          rw [hobj2 p2, if_pos rfl] at ho2
          have ho2eq : o2.childList = op.childList ++ [s.nextFrame] := by
            rw [← (Option.some.injEq _ _).mp ho2]
          intro c hc
          rw [ho2eq] at hc
          rcases List.mem_append.mp hc with hc | hc
          · obtain ⟨hcreg, hcpar, hclt⟩ := hinv.childOk p2 op ⟨k, hk2⟩ hop c hc
            have hcf : c ≠ s.nextFrame :=
              fun h2 => absurd (h2 ▸ hglt c hcreg) (lt_irrefl _)
            refine ⟨hregold c hcreg, ?_, hclt⟩
            rw [hpar2 c hcf]
            exact hcpar
          · rw [List.mem_singleton] at hc
            subst hc
            refine ⟨⟨fid, ?_⟩, ?_, hp2lt⟩
            · show mfind (mput s.registry fid s.nextFrame) fid = _
              rw [mfind_mput_self]
            · rw [frameParent, hobj2 s.nextFrame,
                if_neg (fun h2 => hpf h2.symm), if_pos rfl]
        · rw [hobj2 p2, if_neg hgp,
            if_neg (fun h2 => absurd (h2 ▸ hp2lt) (lt_irrefl _))] at ho2
          intro c hc
          obtain ⟨hcreg, hcpar, hclt⟩ := hinv.childOk p2 o2 ⟨k, hk2⟩ ho2 c hc
          have hcf : c ≠ s.nextFrame :=
            fun h2 => absurd (h2 ▸ hglt c hcreg) (lt_irrefl _)
          refine ⟨hregold c hcreg, ?_, hclt⟩
          rw [hpar2 c hcf]
          exact hcpar
    · intro c q hregc hpc
      obtain ⟨k, hk⟩ := hregc
      rcases hreg2 k c hk with ⟨hk1, hk2⟩ | ⟨hk1, hk2⟩
      · subst hk2
        rw [frameParent, hobj2 s.nextFrame, if_neg (fun h2 => hpf h2.symm),
          if_pos rfl] at hpc
        have hq : q = p := ((Option.some.injEq _ _).mp hpc).symm
        subst hq
        refine ⟨hregold q ⟨pid, hpr⟩, ?_⟩
        refine ⟨_, by rw [hobj2 q, if_pos rfl], ?_⟩
        show s.nextFrame ∈ op.childList ++ [s.nextFrame]
        exact List.mem_append.mpr (Or.inr (by simp))
      · have hclt : c < s.nextFrame := hglt c ⟨k, hk2⟩
        rw [hpar2 c (fun h2 => absurd (h2 ▸ hclt) (lt_irrefl _))] at hpc
        obtain ⟨hregq, oq, hoq, hcq⟩ := hinv.parentOk c q ⟨k, hk2⟩ hpc
        have hqlt : q < s.nextFrame := hglt q hregq
        refine ⟨hregold q hregq, ?_⟩
        by_cases hqp : q = p
        · subst hqp
          refine ⟨_, by rw [hobj2 q, if_pos rfl], ?_⟩
          rw [hop] at hoq
          have : oq = op := ((Option.some.injEq _ _).mp hoq).symm
          show c ∈ op.childList ++ [s.nextFrame]
          rw [this] at hcq
          exact List.mem_append.mpr (Or.inl hcq)
        · refine ⟨oq, ?_, hcq⟩
          rw [hobj2 q, if_neg hqp,
            if_neg (fun h2 => absurd (h2 ▸ hqlt) (lt_irrefl _))]
          exact hoq
    · intro g o ho c hc
      rw [hobj2 g] at ho
      by_cases hgp : g = p
      · subst hgp
        rw [if_pos rfl] at ho
        have hcl : o.childList = op.childList ++ [s.nextFrame] := by
          rw [← (Option.some.injEq _ _).mp ho]
        rw [hcl] at hc
        rcases List.mem_append.mp hc with hc | hc
        · exact hinv.heapOrder g op hop c hc
        · rw [List.mem_singleton] at hc
          subst hc
          exact hplt
      · rw [if_neg hgp] at ho
        by_cases hgf : g = s.nextFrame
        · subst hgf
          rw [if_pos rfl] at ho
          have hcl : o.childList = [] := by
            rw [← (Option.some.injEq _ _).mp ho]
          rw [hcl] at hc
          cases hc
        · rw [if_neg hgf] at ho
          exact hinv.heapOrder g o ho c hc

theorem regInv_navigatedWithin (s s2 : FrameManager) (fid url : String)
    (hinv : RegInv s)
    (h : FrameManager.onFrameNavigatedWithinDocument s fid url = some s2) :
    RegInv s2 := by
  rw [FrameManager.onFrameNavigatedWithinDocument] at h
  rcases hr : mfind s.registry fid with _ | f
  · rw [hr] at h
    simp only [Option.some.injEq] at h
    subst h
    exact hinv
  · rw [hr] at h
    simp only [Option.some.injEq] at h
    subst h
    refine regInv_congr s _ rfl rfl rfl ?_ hinv
    intro g
    show Option.map (fun o => (o.dataId, o.parent, o.childList, o.detached))
        (mfind (mupd s.objs f (fun o => { o with url := url })) g)
      = Option.map (fun o => (o.dataId, o.parent, o.childList, o.detached))
        (mfind s.objs g)
    by_cases hgf : g = f
    · subst hgf
      rw [mfind_mupd_self]
      cases mfind s.objs g <;> rfl
    · rw [mfind_mupd_ne _ _ _ _ (fun h2 => hgf h2.symm)]

theorem regInv_detached (s s2 : FrameManager) (fid : String)
    (hinv : RegInv s)
    (hnm : ∀ f, mfind s.registry fid = some f → s.mainFrame ≠ some f)
    (h : FrameManager.onFrameDetached s fid = some s2) : RegInv s2 := by
  rw [FrameManager.onFrameDetached] at h
  rcases hr : mfind s.registry fid with _ | f
  · rw [hr] at h
    simp only [Option.some.injEq] at h
    subst h
    exact hinv
  · rw [hr] at h
    simp only at h
    obtain ⟨rem, spec, hfrem, horig, hclos⟩ :=
      (removal_spec_master s.nextFrame).1 f s s2 h
    apply regInv_removal s s2 rem [f] hinv spec
    · intro r hrm
      rw [List.mem_singleton] at hrm
      rw [hrm]
      exact ⟨fid, hr⟩
    · intro x hx
      rcases horig x hx with h1 | h2
      · exact Or.inl (by rw [List.mem_singleton]; exact h1)
      · exact Or.inr h2
    · exact hclos
    · intro r hrm
      rw [List.mem_singleton] at hrm
      rw [hrm]
      exact hnm f hr

theorem mupd_pres_tuple (objs : List (Nat × FrameObj)) (f g : Nat)
    (fn : FrameObj → FrameObj)
    (hfn : ∀ o, ((fn o).dataId, (fn o).parent, (fn o).childList, (fn o).detached)
      = (o.dataId, o.parent, o.childList, o.detached)) :
    Option.map (fun o => (o.dataId, o.parent, o.childList, o.detached))
      (mfind (mupd objs f fn) g)
    = Option.map (fun o => (o.dataId, o.parent, o.childList, o.detached))
      (mfind objs g) := by
  by_cases hgf : g = f
  · subst hgf
    rw [mfind_mupd_self]
    cases mfind objs g with
    | none => rfl
    | some o =>
      simp only [Option.map_some']
      exact congrArg some (hfn o)
  · rw [mfind_mupd_ne _ _ _ _ (fun h2 => hgf h2.symm)]

theorem regInv_navigated (s s2 : FrameManager) (p : FramePayload) (b : Bool)
    (hinv : RegInv s)
    (h : FrameManager.onFrameNavigated s p b = some s2) : RegInv s2 := by
  rw [FrameManager.onFrameNavigated] at h
  rcases hfq : (if p.parentId.isNone then s.mainFrame else mfind s.registry p.id)
    with _ | f
  · simp only [hfq] at h
    exact Option.noConfusion h
  · simp only [hfq] at h
    rcases ho : mfind s.objs f with _ | o
    · rw [ho] at h
      exact absurd h (by simp)
    · rw [ho] at h
      simp only at h
      rcases hrl : removeList s.nextFrame o.childList s with _ | s1
      · rw [hrl] at h
        exact absurd h (by simp)
      · rw [hrl] at h
        simp only [Option.some.injEq] at h
        subst h
        have hfreg : Registered s f := by
          by_cases hpn : p.parentId.isNone = true
          · rw [if_pos hpn] at hfq
            rcases hinv.mainOk with ⟨-, hmn⟩ | ⟨m, hm, hregm, -, -⟩
            · rw [hmn] at hfq
              exact Option.noConfusion hfq
            · rw [hm] at hfq
              exact ((Option.some.injEq _ _).mp hfq) ▸ hregm
          · rw [if_neg hpn] at hfq
            exact ⟨p.id, hfq⟩
        have hco := hinv.childOk f o hfreg ho
        obtain ⟨rem, spec, hsubl, horig, hclos⟩ :=
          (removal_spec_master s.nextFrame).2 o.childList s s1 hrl
        have hroots : ∀ r ∈ o.childList, Registered s r := fun r hr => (hco r hr).1
        have hmainR : ∀ r ∈ o.childList, s.mainFrame ≠ some r := by
          intro r hr hmr
          rcases hinv.mainOk with ⟨-, hmn⟩ | ⟨m, hm, -, hpm, -⟩
          · rw [hmn] at hmr
            exact Option.noConfusion hmr
          · rw [hm] at hmr
            have hmr2 : m = r := (Option.some.injEq _ _).mp hmr
            have hpr2 := (hco r hr).2.1
            rw [← hmr2, hpm] at hpr2
            exact Option.noConfusion hpr2
        have hinv1 : RegInv s1 :=
          regInv_removal s s1 rem o.childList hinv spec hroots horig hclos hmainR
        have hremreg := rem_registered s rem o.childList hinv hroots horig hclos
        have hiff := removal_registry_iff s s1 rem hinv spec hremreg
        by_cases hpn : p.parentId.isNone = true
        · -- main-frame navigation: the registry is rewritten to the new id
          rw [if_pos hpn] at hfq
          have hmfacts : frameParent s f = none ∧
              (∀ g, Registered s g → frameParent s g = none → g = f) := by
            rcases hinv.mainOk with ⟨-, hmn⟩ | ⟨m, hm, -, hpm, huniq⟩
            · rw [hmn] at hfq
              exact Option.noConfusion hfq
            · rw [hm] at hfq
              have hmf : m = f := (Option.some.injEq _ _).mp hfq
              exact ⟨hmf ▸ hpm, fun g hg hpg => hmf ▸ huniq g hg hpg⟩
          obtain ⟨hpmf, huniqf⟩ := hmfacts
          have hfnotrem : ¬ f ∈ rem := by
            intro hfr
            rcases rem_parent s rem o.childList hinv hroots horig hclos f hfr with
              hR | ⟨y, hy, hp2⟩
            · have := (hco f hR).2.1
              rw [hpmf] at this
              exact Option.noConfusion this
            · rw [hpmf] at hp2
              exact Option.noConfusion hp2
          obtain ⟨k0, hk0⟩ := hfreg
          obtain ⟨o0, ho0, hk0d, hdet0, hflt⟩ := hinv.regObj k0 f hk0
          have hoeq : o0 = o := by
            rw [ho] at ho0
            exact ((Option.some.injEq _ _).mp ho0).symm
          rw [hoeq] at hk0d hdet0
          obtain ⟨o1, ho1, ho1d, ho1p, -, -, -, -, -, -, ho1sub, -, ho1det⟩ :=
            spec.objSome f o ho
          have hdesc : ∀ g, Registered s g → g ≠ f → g ∈ rem := by
            intro g
            induction g using Nat.strong_induction_on with
            | _ g ih =>
              intro hreg hgf
              rcases hparg : frameParent s g with _ | q
              · exact absurd (huniqf g hreg hparg) hgf
              · obtain ⟨hregq, oq, hoq, hgq⟩ := hinv.parentOk g q hreg hparg
                have hqg : q < g := hinv.heapOrder q oq hoq g hgq
                by_cases hqf : q = f
                · have hoqo : oq = o := by
                    rw [hqf, ho] at hoq
                    exact ((Option.some.injEq _ _).mp hoq).symm
                  rw [hoqo] at hgq
                  exact hsubl g hgq
                · have hqrem : q ∈ rem := ih q hqg hregq hqf
                  exact hclos q hqrem oq hoq g hgq
          have hs1reg : ∀ k, k ≠ k0 → mfind s1.registry k = none := by
            intro k hk
            rcases hsk : mfind s.registry k with _ | g
            · rw [spec.regPoint k]
              split
              · rfl
              · exact hsk
            · have hgf : g ≠ f := by
                intro h2
                exact hk (reg_key_unique s hinv k k0 f (h2 ▸ hsk) hk0)
              have hgrem : g ∈ rem := hdesc g ⟨k, hsk⟩ hgf
              rcases hs1k : mfind s1.registry k with _ | g2
              · rfl
              · obtain ⟨hold, hnrem⟩ := (hiff k g2).mp hs1k
                rw [hsk] at hold
                have hgg : g = g2 := (Option.some.injEq _ _).mp hold
                exact absurd (hgg ▸ hgrem) hnrem
          have hs1k0 : mfind s1.registry k0 = some f := (hiff k0 f).mpr ⟨hk0, hfnotrem⟩
          have hk0d1 : o1.dataId = k0 := ho1d.trans hk0d
          have hop0 : o.parent = none := by
            rw [frameParent, ho] at hpmf
            exact hpmf
          have hcl1 : o1.childList = [] := by
            rw [List.eq_nil_iff_forall_not_mem]
            intro c hc
            have hcold : c ∈ o.childList := ho1sub hc
            have hcrem : c ∈ rem := hsubl c hcold
            exact spec.absent c hcrem f (hco c hcold).2.1 o1 ho1 hc
          have hdet1 : o1.detached = false := by
            rw [ho1det, hdet0]
            simp [hfnotrem]
          have hregA : ∀ k g,
              mfind (mput (mdel s1.registry o1.dataId) p.id f) k = some g ↔
              (k = p.id ∧ g = f) := by
            intro k g
            constructor
            · intro hk
              by_cases hkp : k = p.id
              · rw [hkp, mfind_mput_self] at hk
                exact ⟨hkp, ((Option.some.injEq _ _).mp hk).symm⟩
              · rw [mfind_mput_ne _ _ _ _ (fun h2 => hkp h2.symm)] at hk
                by_cases hkk0 : k = o1.dataId
                · rw [hkk0, mfind_mdel_self] at hk
                  exact Option.noConfusion hk
                · rw [mfind_mdel_ne _ _ _ (fun h2 => hkk0 h2.symm)] at hk
                  by_cases hkk : k = k0
                  · exact absurd (hkk.trans hk0d1.symm) hkk0
                  · rw [hs1reg k hkk] at hk
                    exact Option.noConfusion hk
            · rintro ⟨hk1, hk2⟩
              rw [hk1, hk2]
              exact mfind_mput_self _ _ _
          have hobjA : ∀ g,
              mfind (mupd s1.objs f (fun oo => { oo with dataId := p.id })) g =
              if g = f then some { o1 with dataId := p.id }
              else mfind s1.objs g := by
            intro g
            by_cases hgf : g = f
            · rw [if_pos hgf, hgf, mfind_mupd_self, ho1, Option.map_some']
            · rw [if_neg hgf, mfind_mupd_ne _ _ _ _ (fun h2 => hgf h2.symm)]
          have hA : RegInv { s1 with
              registry := mput (mdel s1.registry o1.dataId) p.id f,
              objs := mupd s1.objs f (fun oo => { oo with dataId := p.id }) } := by
            constructor
            · exact nodup_keys_mput _ _ _ (mdel_keys_nodup _ _ hinv1.nodupKeys)
            · intro k g hk
              obtain ⟨hk1, hk2⟩ := (hregA k g).mp hk
              rw [hk1, hk2]
              refine ⟨{ o1 with dataId := p.id }, ?_, rfl, hdet1, ?_⟩
              · show mfind (mupd s1.objs f (fun oo => { oo with dataId := p.id })) f
                  = some { o1 with dataId := p.id }
                rw [hobjA f, if_pos rfl]
              · show f < s1.nextFrame
                rw [spec.sameNext]
                exact hflt
            · right
              refine ⟨f, ?_, ⟨p.id, mfind_mput_self _ _ _⟩, ?_, ?_⟩
              · show s1.mainFrame = some f
                rw [spec.sameMain]
                exact hfq
              · show (match mfind (mupd s1.objs f (fun oo =>
                    { oo with dataId := p.id })) f with
                  | some o2 => o2.parent | none => none) = none
                rw [hobjA f, if_pos rfl]
                show o1.parent = none
                rw [ho1p, hop0]
              · intro g hg hpg
                obtain ⟨k, hk⟩ := hg
                exact ((hregA k g).mp hk).2
            · intro p2 o2 hregp2 ho2
              obtain ⟨k, hk⟩ := hregp2
              obtain ⟨-, hk2⟩ := (hregA k p2).mp hk
              rw [hk2] at ho2
              rw [show mfind (mupd s1.objs f (fun oo =>
                  { oo with dataId := p.id })) f =
                  some { o1 with dataId := p.id } from by
                rw [hobjA f, if_pos rfl]] at ho2
              have hcl2 : o2.childList = [] := by
                rw [← (Option.some.injEq _ _).mp ho2, hcl1]
              intro c hc
              rw [hcl2] at hc
              cases hc
            · intro c q hregc hpc
              obtain ⟨k, hk⟩ := hregc
              obtain ⟨-, hk2⟩ := (hregA k c).mp hk
              rw [hk2] at hpc
              rw [frameParent] at hpc
              rw [show mfind (mupd s1.objs f (fun oo =>
                  { oo with dataId := p.id })) f =
                  some { o1 with dataId := p.id } from by
                rw [hobjA f, if_pos rfl]] at hpc
              have : o1.parent = some q := hpc
              rw [ho1p, hop0] at this
              exact Option.noConfusion this
            · intro g og hog c hc
              rw [hobjA g] at hog
              by_cases hgf : g = f
              · rw [if_pos hgf] at hog
                have hclg : og.childList = [] := by
                  rw [← (Option.some.injEq _ _).mp hog, hcl1]
                rw [hclg] at hc
                cases hc
              · rw [if_neg hgf] at hog
                exact hinv1.heapOrder g og hog c hc
          rw [if_pos hpn, ho1]
          refine regInv_congr _ _ ?_ ?_ ?_ ?_ hA
          · cases b <;> rfl
          · cases b <;> rfl
          · cases b <;> rfl
          · intro g
            cases b <;>
              (simp only [Bool.false_eq_true, eq_self_iff_true, if_false, if_true]
               refine (mupd_pres_tuple _ f g _ ?_).trans
                 (mupd_pres_tuple _ f g _ ?_) <;> exact fun o2 => rfl)
        · -- subframe navigation: the registry is untouched
          have hpn2 : p.parentId.isNone = false := by
            revert hpn
            cases p.parentId.isNone <;> simp
          simp only [hpn2, Bool.false_eq_true, if_false]
          refine regInv_congr s1 _ ?_ ?_ ?_ ?_ hinv1
          · cases b <;> rfl
          · cases b <;> rfl
          · cases b <;> rfl
          · intro g
            cases b <;>
              (simp only [Bool.false_eq_true, eq_self_iff_true, if_false, if_true]
               refine (mupd_pres_tuple _ f g _ ?_).trans
                 (mupd_pres_tuple _ f g _ ?_) <;> exact fun o2 => rfl)

theorem goodReach_regInv (s : FrameManager) (h : GoodReach s) : RegInv s := by
  induction h with
  | init => exact regInv_init
  | attachRoot s1 s2 fid hr hre hstep ih => exact regInv_attachRoot s1 s2 fid ih hre hstep
  | attachChild s1 s2 fid pid p hr hpr hstep ih =>
    exact regInv_attachChild s1 s2 fid pid p ih hpr hstep
  | navigated s1 s2 p b hr hstep ih => exact regInv_navigated s1 s2 p b ih hstep
  | navigatedWithin s1 s2 fid url hr hstep ih =>
    exact regInv_navigatedWithin s1 s2 fid url ih hstep
  | detached s1 s2 fid hr hnm hstep ih => exact regInv_detached s1 s2 fid ih hnm hstep

/-- C8 (corrected): in every state reached through well-formed protocol
traffic — a root attach only into an empty registry, child attaches only
under registered parents, no detach of the current main frame — the
registry keys are pairwise distinct, and whenever the registry is nonempty
exactly one registered frame has no parent, namely the frame returned by
`mainFrame()`; attaching an id that is already registered fails with the
invariant-violation error.  (The unrestricted claim is refuted separately:
an attach whose non-null parent id is unknown installs a second parentless
main frame.) -/
theorem c8_registry_shape (s : FrameManager) (h : GoodReach s) :
    (s.registry.map Prod.fst).Nodup
    ∧ (s.registry ≠ [] → ∃ m, s.mainFrame = some m ∧ Registered s m
        ∧ frameParent s m = none
        ∧ ∀ f, Registered s f → frameParent s f = none → f = m)
    ∧ (∀ fid pid, (mfind s.registry fid).isSome →
        FrameManager.onFrameAttached s fid pid
          = .error ("ProtocolInvariantViolation: frame id already attached")) := by
  have hinv := goodReach_regInv s h
  refine ⟨hinv.nodupKeys, ?_, ?_⟩
  · intro hne
    rcases hinv.mainOk with ⟨hre, -⟩ | ⟨m, hm, hr, hp, hu⟩
    · exact absurd hre hne
    · exact ⟨m, hm, hr, hp, hu⟩
  · intro fid pid hex
    rw [FrameManager.onFrameAttached.eq_def, if_pos hex]

/-- Witness for C8 at a concrete input: the two-frame state `"a"` (main)
with child `"b"` is reached through well-formed traffic and satisfies the
registry shape; re-attaching `"b"` fails. -/
theorem c8_witness :
    GoodReach attachedAB
    ∧ ((attachedAB.registry.map Prod.fst).Nodup
      ∧ (attachedAB.registry ≠ [] → ∃ m, attachedAB.mainFrame = some m
          ∧ Registered attachedAB m
          ∧ frameParent attachedAB m = none
          ∧ ∀ f, Registered attachedAB f → frameParent attachedAB f = none → f = m)
      ∧ (∀ fid pid, (mfind attachedAB.registry fid).isSome →
          FrameManager.onFrameAttached attachedAB fid pid
            = .error ("ProtocolInvariantViolation: frame id already attached"))) := by
  have h1 : FrameManager.onFrameAttached initFM ("a") none = .ok attachedA := rfl
  have h2 : FrameManager.onFrameAttached attachedA ("b") (some ("a"))
      = .ok attachedAB := rfl
  have hg : GoodReach attachedAB :=
    GoodReach.attachChild attachedA attachedAB ("b") ("a") 0
      (GoodReach.attachRoot initFM attachedA ("a") GoodReach.init rfl h1)
      (by decide) h2
  exact ⟨hg, c8_registry_shape attachedAB hg⟩

/-- Counterexample to the unrestricted C8 claim: starting from the empty
registry, attach `"a"` with no parent, then attach `"b"` under the unknown
parent id `"zz"`.  The second attach succeeds and installs `"b"` as a new
main frame, leaving two registered parentless frames, so "exactly one
registered frame has no parent" fails for a sequence the claim explicitly
includes. -/
theorem c8_counterexample_two_parentless :
    ∃ s1 s2, FrameManager.onFrameAttached initFM ("a") none = .ok s1
      ∧ mfind s1.registry ("zz") = none
      ∧ FrameManager.onFrameAttached s1 ("b") (some ("zz")) = .ok s2
      ∧ Registered s2 0 ∧ Registered s2 1
      ∧ frameParent s2 0 = none ∧ frameParent s2 1 = none
      ∧ (0 : Nat) ≠ 1
      ∧ s2.mainFrame = some 1 := by
  refine ⟨attachedA,
    (FrameManager.onFrameAttached attachedA ("b") (some ("zz"))).toOption.getD
      attachedA, rfl, by decide, rfl, ⟨("a"), by decide⟩, ⟨("b"), by decide⟩,
    by decide, by decide, by decide, by decide⟩
